import Mathlib

/-!
Verification development for the `merge_pdf` program (src/main.rs).

The program merges an ordered list of PDF documents into one output
document.  We shallowly embed the data model of the `lopdf` object algebra
(dictionaries as ordered association lists, the object maps as sorted
association lists mirroring `BTreeMap` iteration order) and translate the
body of `main` into pure Lean functions: the per-document loop (renumber,
page collection, bookmark layer machine), the classification pass over
`documents_objects`, and the reassembly of the output graph.  Operations
provided by the external `lopdf` library that are not part of this
repository (renumbering, page enumeration, bookmark bookkeeping, the final
outline materialisation) are modelled from the specification and marked as
such in their doc comments.
-/

namespace MergePdf

/-- Object identifiers: (number, generation) pairs, as lopdf's `ObjectId = (u32, u16)`. -/
abbrev ObjectId := Nat × Nat

/-- The lopdf object algebra: a tagged value.  Dictionaries and streams carry
ordered association lists of name/value pairs (lopdf keeps dictionary entry
order); arrays are ordered sequences. -/
inductive Obj : Type where
  | null : Obj
  | boolean : Bool → Obj
  | integer : Int → Obj
  | string : String → Obj
  | name : String → Obj
  | reference : ObjectId → Obj
  | array : List Obj → Obj
  | dictionary : List (String × Obj) → Obj
  | stream : List (String × Obj) → Obj

/-- Dictionary lookup: first entry with the given key (lopdf `Dictionary::get`). -/
def dictGet (d : List (String × Obj)) (k : String) : Option Obj :=
  (d.find? (fun p => p.1 == k)).map (fun p => p.2)

/-- Dictionary update (lopdf `Dictionary::set`, linked-hash-map semantics):
replace the value in place when the key is present, otherwise append. -/
def dictSet (d : List (String × Obj)) (k : String) (v : Obj) : List (String × Obj) :=
  if d.any (fun p => p.1 == k) then
    d.map (fun p => if p.1 == k then (k, v) else p)
  else
    d ++ [(k, v)]

/-- Dictionary removal (lopdf `Dictionary::remove`). -/
def dictRemove (d : List (String × Obj)) (k : String) : List (String × Obj) :=
  d.filter (fun p => ¬ p.1 == k)

/-- Dictionary extension (lopdf `Dictionary::extend`): insert every entry of
`other`, overwriting values of keys already present in `d`. -/
def dictExtend (d other : List (String × Obj)) : List (String × Obj) :=
  other.foldl (fun acc p => dictSet acc p.1 p.2) d

/-- lopdf `Object::as_dict`: succeeds only on dictionaries. -/
def Obj.asDict : Obj → Option (List (String × Obj))
  | .dictionary d => some d
  | _ => none

/-- lopdf `Object::as_i64` style projection, used by observers in theorems. -/
def Obj.asInt : Obj → Option Int
  | .integer i => some i
  | _ => none

/-- lopdf `Object::type_name`: the dictionary's `Type` entry when it is a name. -/
def Obj.typeName (o : Obj) : Option String :=
  o.asDict.bind (fun d =>
    (dictGet d "Type").bind (fun t =>
      match t with
      | .name s => some s
      | _ => none))

/-- `object.type_name().unwrap_or("")` from main.rs line 155. -/
def typeNameD (o : Obj) : String := (Obj.typeName o).getD ""

/-- Strict lexicographic order on object identifiers, the `BTreeMap` key order. -/
def idLt (a b : ObjectId) : Bool := a.1 < b.1 || (a.1 == b.1 && a.2 < b.2)

/-- Propositional counterpart of `idLt`. -/
def IdLt (a b : ObjectId) : Prop := a.1 < b.1 ∨ (a.1 = b.1 ∧ a.2 < b.2)

/-- Sorted-association-list insert, mirroring `BTreeMap::insert`: keeps keys in
ascending order and replaces the value at an existing key. -/
def btInsert (m : List (ObjectId × Obj)) (k : ObjectId) (v : Obj) :
    List (ObjectId × Obj) :=
  match m with
  | [] => [(k, v)]
  | (k', v') :: rest =>
    if idLt k k' then (k, v) :: (k', v') :: rest
    else if k == k' then (k, v) :: rest
    else (k', v') :: btInsert rest k v

/-- `BTreeMap::extend`: insert every entry in iteration order. -/
def btExtend (m entries : List (ObjectId × Obj)) : List (ObjectId × Obj) :=
  entries.foldl (fun acc p => btInsert acc p.1 p.2) m

/-- `BTreeMap` lookup (also lopdf `Document::get_object` on the object map). -/
def btGet (m : List (ObjectId × Obj)) (k : ObjectId) : Option Obj :=
  (m.find? (fun p => p.1 == k)).map (fun p => p.2)

/-- A loaded document graph.  `objects` is the object map in `BTreeMap`
iteration order (ascending identifiers); `maxId` is the running
maximum-identifier counter.  `pages` is the result of the external
`get_pages` enumeration. Modelled from the spec: `get_pages` is an external
collaborator operation returning the document's page identifiers in the
document's own page-tree order, so we carry that enumeration as data and
renumbering rewrites it alongside the graph. -/
structure PdfDoc where
  objects : List (ObjectId × Obj)
  pages : List ObjectId
  maxId : Nat
  trailer : List (String × Obj)

/-- Renumbering substitution: the i-th key of the object map (in iteration
order) is sent to number `offset + i`, keeping its generation. -/
def renumMap (objects : List (ObjectId × Obj)) (offset : Nat) :
    List (ObjectId × ObjectId) :=
  match objects with
  | [] => []
  | p :: rest => (p.1, (offset, p.1.2)) :: renumMap rest (offset + 1)

/-- Apply a substitution to one identifier; identifiers outside the domain are
passed through unchanged (best-effort, per the spec). -/
def substId (sig : List (ObjectId × ObjectId)) (id : ObjectId) : ObjectId :=
  match sig.find? (fun p => p.1 == id) with
  | some p => p.2
  | none => id

mutual
/-- Apply a substitution to every `Reference` inside an object. -/
def substObj (sig : List (ObjectId × ObjectId)) : Obj → Obj
  | .null => .null
  | .boolean b => .boolean b
  | .integer i => .integer i
  | .string s => .string s
  | .name s => .name s
  | .reference id => .reference (substId sig id)
  | .array xs => .array (substList sig xs)
  | .dictionary d => .dictionary (substPairs sig d)
  | .stream d => .stream (substPairs sig d)

/-- Apply a substitution across a list of objects. -/
def substList (sig : List (ObjectId × ObjectId)) : List Obj → List Obj
  | [] => []
  | o :: os => substObj sig o :: substList sig os

/-- Apply a substitution across dictionary entries. -/
def substPairs (sig : List (ObjectId × ObjectId)) :
    List (String × Obj) → List (String × Obj)
  | [] => []
  | p :: ps => (p.1, substObj sig p.2) :: substPairs sig ps
end

/-- Modelled from the spec: lopdf `Document::renumber_objects_with(offset)`.
Rewrites every identifier appearing as a key or inside any reference so that
all resulting identifiers are ≥ offset; references to nonexistent identifiers
are passed through unchanged; `maxId` becomes the new maximum identifier used
(`offset - 1` for an empty document, so renumbering an empty document is a
no-op on the offset threading). The page enumeration is rewritten
consistently. -/
def renumberWith (d : PdfDoc) (offset : Nat) : PdfDoc :=
  let sig := renumMap d.objects offset
  { objects := d.objects.map (fun p => (substId sig p.1, substObj sig p.2))
    pages := d.pages.map (substId sig)
    maxId := offset + d.objects.length - 1
    trailer := substPairs sig d.trailer }

-- A quick sanity example exercising evaluation of the mutual recursion.
example :
    substObj [((1, 0), (5, 0))] (.array [.reference (1, 0), .integer 3]) =
      .array [.reference (5, 0), .integer 3] := by
  rfl

/-- Errors of a run, mirroring the `lopdf::Error` values produced in main.rs. -/
inductive PdfError where
  | invalid : String → PdfError
  | objectNotFound : PdfError
deriving Repr, DecidableEq

/-- A bookmark, as constructed by `Bookmark::new(title, color, format, page)`.
The only colour occurring in the program is black, written `[0.0, 0.0, 0.0]`;
its components are exact small integers, so we model the colour as an integer
triple. -/
structure Bookmark where
  title : String
  color : Int × Int × Int
  format : Nat
  target : ObjectId
deriving Repr, DecidableEq

/-- One entry of the output document's bookmark table: the bookmark data and
the parent bookmark reference it was created under. -/
structure BookmarkEntry where
  bookmark : Bookmark
  parent : Option Nat
deriving Repr, DecidableEq

/-- The output document being built (`res` in main.rs): an object map, a
trailer, the max-id counter, and the bookmark table. Modelled from the spec:
lopdf's bookmark bookkeeping is external; `add_bookmark` returns a fresh
`BookmarkRef` (consecutive numbers from 1) and records the entry together
with its parent reference. -/
structure OutDoc where
  objects : List (ObjectId × Obj)
  trailer : List (String × Obj)
  maxId : Nat
  bookmarks : List (Nat × BookmarkEntry)
  nextBookmarkId : Nat

/-- Modelled from the spec: `add_bookmark(bookmark, parent)` allocates the next
bookmark reference, stores the entry, and returns the reference. -/
def OutDoc.addBookmark (d : OutDoc) (b : Bookmark) (parent : Option Nat) :
    Nat × OutDoc :=
  let id := d.nextBookmarkId
  (id, { d with bookmarks := d.bookmarks ++ [(id, ⟨b, parent⟩)]
                nextBookmarkId := id + 1 })

/-- `Document::new()` for the output accumulator. -/
def emptyOut : OutDoc :=
  { objects := [], trailer := [], maxId := 0, bookmarks := [], nextBookmarkId := 1 }

/-- The mutable state threaded through the per-document loop of `main`
(lines 36-145): the layer-parent slots, the last layer ran, the running
max-id counter, the running page-title counter, the two global `BTreeMap`s
and the output document. -/
structure MergeState where
  layerParent : List (Option Nat)
  lastLayer : Nat
  maxId : Nat
  pagenum : Nat
  documentsPages : List (ObjectId × Obj)
  documentsObjects : List (ObjectId × Obj)
  res : OutDoc

/-- Which arm of the `match layer` statement (main.rs lines 107-144) a step
took: the literal `0` arm, the literal `1` arm, the guarded arm
(`l <= last_layer || l - 1 == last_layer`), the `last_layer > 0` fallback, or
the final fallback. -/
inductive Arm where
  | zero | one | guarded | fallbackPos | fallbackZero
deriving Repr, DecidableEq

/-- Per-document observations recorded alongside the loop, used to state
claims: the arm taken, the bookmark created (its id, parent, title, target),
the offset this document was renumbered with, the document's `max_id` after
renumbering, `last_layer` after the step, and the renumbered page
enumeration order. -/
structure StepInfo where
  arm : Arm
  bookmarkId : Nat
  parent : Option Nat
  title : String
  target : ObjectId
  offset : Nat
  maxUsed : Nat
  lastLayerAfter : Nat
  pagesOrder : List ObjectId
deriving Repr, DecidableEq

/-- Accumulator of the page-scan part of the loop body (lines 69-92):
the global pages map being extended, the first page seen, the generated
title, and the running page-title counter. -/
structure PageScan where
  dp : List (ObjectId × Obj)
  firstObject : Option ObjectId
  display : String
  pagenum : Nat

/-- The `for (key, value) in doc.get_pages()...` loop (lines 78-92): walk the
page enumeration, record the first page and generate the title once, look up
each page object (failing like `get_object` when absent) and insert it into
the global pages map. -/
def collectPagesAux (doc : PdfDoc) :
    List ObjectId → PageScan → Except PdfError PageScan
  | [], s => .ok s
  | pid :: rest, s =>
    let s1 :=
      if s.firstObject.isNone then
        { s with firstObject := some pid
                 display := "Page " ++ toString s.pagenum
                 pagenum := s.pagenum + 1 }
      else s
    match btGet doc.objects pid with
    | none => .error .objectNotFound
    | some o => collectPagesAux doc rest { s1 with dp := btInsert s1.dp pid o }

/-- Page collection for one (already renumbered) document, starting from the
current global pages map and title counter. -/
def collectPages (doc : PdfDoc) (dp0 : List (ObjectId × Obj)) (pagenum0 : Nat) :
    Except PdfError PageScan :=
  collectPagesAux doc doc.pages
    { dp := dp0, firstObject := none, display := "", pagenum := pagenum0 }

/-- Result of one bookmark-machine step. -/
structure BookmarkStep where
  layerParent : List (Option Nat)
  lastLayer : Nat
  res : OutDoc
  arm : Arm
  bookmarkId : Nat
  parent : Option Nat

/-- `layer_parent.get_mut(i)` followed by assignment: set slot `i` when it is
in bounds. -/
def setSlot (l : List (Option Nat)) (i : Nat) (v : Option Nat) :
    Option (List (Option Nat)) :=
  if i < l.length then some (l.set i v) else none

/-- The `match layer { ... }` statement of main.rs lines 107-144: create one
bookmark whose parent is read from the layer-parent slots, store its id into
the slot the arm names, and update `last_layer`.  Out-of-bounds slot access
fails with the same `Invalid` errors the source constructs. -/
def bookmarkUpdate (lp : List (Option Nat)) (last : Nat) (res : OutDoc)
    (layer : Nat) (bm : Bookmark) : Except PdfError BookmarkStep :=
  if layer == 0 then
    let r := res.addBookmark bm none
    match setSlot lp 0 (some r.1) with
    | none => .error (.invalid "layer_parent is empty")
    | some lp' => .ok ⟨lp', 0, r.2, .zero, r.1, none⟩
  else if layer == 1 then
    match lp.get? 0 with
    | none => .error (.invalid "layer_parent is empty")
    | some parent =>
      let r := res.addBookmark bm parent
      match setSlot lp 1 (some r.1) with
      | none => .error (.invalid "layer_parent[1] is out of index")
      | some lp' => .ok ⟨lp', 1, r.2, .one, r.1, parent⟩
  else if layer ≤ last || layer - 1 == last then
    match lp.get? (layer - 1) with
    | none => .error (.invalid "layer_parent is empty")
    | some parent =>
      let r := res.addBookmark bm parent
      match setSlot lp (layer - 1) (some r.1) with
      | none => .error (.invalid "layer_parent is out of index")
      | some lp' => .ok ⟨lp', layer, r.2, .guarded, r.1, parent⟩
  else if 0 < last then
    match lp.get? (last - 1) with
    | none => .error (.invalid "layer_parent is out of index")
    | some parent =>
      let r := res.addBookmark bm parent
      match setSlot lp last (some r.1) with
      | none => .error (.invalid "layer_parent is out of index")
      | some lp' => .ok ⟨lp', last, r.2, .fallbackPos, r.1, parent⟩
  else
    match lp.get? 0 with
    | none => .error (.invalid "layer_parent[0] is out of index")
    | some parent =>
      let r := res.addBookmark bm parent
      match setSlot lp 1 (some r.1) with
      | none => .error (.invalid "layer_parent[1] is out of index")
      | some lp' => .ok ⟨lp', 1, r.2, .fallbackZero, r.1, parent⟩

/-- One iteration of the `for (layer, mut doc) in docs` loop (lines 66-145):
renumber the document at the current offset, advance the offset to
`doc.max_id + 1`, scan its pages, extend the global object map, build the
bookmark (title, black, no style, first page or the `(0, 0)` sentinel) and
run the layer machine. -/
def mergeStep (st : MergeState) (layer : Nat) (doc0 : PdfDoc) :
    Except PdfError (MergeState × StepInfo) :=
  let doc := renumberWith doc0 st.maxId
  match collectPages doc st.documentsPages st.pagenum with
  | .error e => .error e
  | .ok scan =>
    let documentsObjects' := btExtend st.documentsObjects doc.objects
    let object := scan.firstObject.getD (0, 0)
    let bm : Bookmark := ⟨scan.display, (0, 0, 0), 0, object⟩
    match bookmarkUpdate st.layerParent st.lastLayer st.res layer bm with
    | .error e => .error e
    | .ok b =>
      .ok ({ layerParent := b.layerParent
             lastLayer := b.lastLayer
             maxId := doc.maxId + 1
             pagenum := scan.pagenum
             documentsPages := scan.dp
             documentsObjects := documentsObjects'
             res := b.res },
           { arm := b.arm
             bookmarkId := b.bookmarkId
             parent := b.parent
             title := scan.display
             target := object
             offset := st.maxId
             maxUsed := doc.maxId
             lastLayerAfter := b.lastLayer
             pagesOrder := doc.pages })

/-- The whole per-document loop, threading the state and collecting the
per-step observations.  `layer` is the 1-indexed input position, exactly as
`zip(1u32..)` produces it. -/
def mergeLoop (st : MergeState) (layer : Nat) :
    List PdfDoc → Except PdfError (MergeState × List StepInfo)
  | [] => .ok (st, [])
  | d :: ds =>
    match mergeStep st layer d with
    | .error e => .error e
    | .ok (st', info) =>
      match mergeLoop st' (layer + 1) ds with
      | .error e => .error e
      | .ok (st'', infos) => .ok (st'', info :: infos)

/-- Initial state (lines 36-61): layer-parent slots sized to the number of
documents, `last_layer = 0`, `max_id = 1`, `pagenum = 1`, empty maps, and the
"Table of Contents" root bookmark stored into slot 0 (failing when there are
no slots, exactly as `get_mut(0)` does). -/
def initMerge (n : Nat) : Except PdfError MergeState :=
  let lp : List (Option Nat) := List.replicate n none
  let r := emptyOut.addBookmark ⟨"Table of Contents", (0, 0, 0), 0, (0, 0)⟩ none
  match setSlot lp 0 (some r.1) with
  | none => .error (.invalid "layer_parent is empty")
  | some lp' =>
    .ok { layerParent := lp', lastLayer := 0, maxId := 1, pagenum := 1
          documentsPages := [], documentsObjects := [], res := r.2 }

/-- Run the per-document phase of `main` over the loaded documents. -/
def runMerge (docs : List PdfDoc) : Except PdfError (MergeState × List StepInfo) :=
  match initMerge docs.length with
  | .error e => .error e
  | .ok st => mergeLoop st 1 docs

/-- Accumulator of the classification pass over `documents_objects`
(lines 147-195): the canonical Catalog and Pages candidates and the output
object map receiving every other object. -/
structure Classified where
  catalog : Option (ObjectId × Obj)
  pages : Option (ObjectId × Obj)
  resObjects : List (ObjectId × Obj)

/-- One iteration of the classification loop (lines 152-195), dispatching on
`type_name().unwrap_or("")`: a Catalog keeps the first-seen identifier while
storing the current object; a Pages object merges its dictionary with the
running one (`dictionary.extend(old_dictionary)`, so the running entries
overwrite the new document's on key conflicts) and keeps the first-seen
identifier; Page, Outlines and Outline objects are skipped; everything else
is inserted into the output map verbatim. -/
def classifyStep (c : Classified) (entry : ObjectId × Obj) : Classified :=
  let t := typeNameD entry.2
  if t == "Catalog" then
    let keptId :=
      match c.catalog with
      | some (id, _) => id
      | none => entry.1
    { c with catalog := some (keptId, entry.2) }
  else if t == "Pages" then
    match entry.2.asDict with
    | some d =>
      let d' :=
        match c.pages with
        | some (_, old) =>
          match old.asDict with
          | some oldD => dictExtend d oldD
          | none => d
        | none => d
      let keptId :=
        match c.pages with
        | some (id, _) => id
        | none => entry.1
      { c with pages := some (keptId, .dictionary d') }
    | none => c
  else if t == "Page" then c
  else if t == "Outlines" then c
  else if t == "Outline" then c
  else { c with resObjects := btInsert c.resObjects entry.1 entry.2 }

/-- The classification pass over the whole (renumbered) object union, in
`BTreeMap` iteration order. -/
def classify (res0 entries : List (ObjectId × Obj)) : Classified :=
  entries.foldl classifyStep { catalog := none, pages := none, resObjects := res0 }

/-- The page-relinking loop (lines 202-212): insert every collected page
into the output map with its `Parent` rewritten to the canonical Pages
identifier (pages whose object is not a dictionary are skipped, as
`as_dict` fails on them). -/
def relinkPages (dp : List (ObjectId × Obj)) (pageId : ObjectId)
    (acc : List (ObjectId × Obj)) : List (ObjectId × Obj) :=
  dp.foldl
    (fun acc p =>
      match p.2.asDict with
      | some d => btInsert acc p.1 (.dictionary (dictSet d "Parent" (.reference pageId)))
      | none => acc)
    acc

/-- The rebuilt canonical Pages dictionary (lines 222-236): `Count` set to
the number of collected pages, `Kids` set to their references in map
order. -/
def pagesRebuilt (pd : List (String × Obj)) (dp : List (ObjectId × Obj)) :
    List (String × Obj) :=
  dictSet (dictSet pd "Count" (.integer (Int.ofNat dp.length)))
    "Kids" (.array (dp.map (fun p => Obj.reference p.1)))

/-- Reassembly (lines 197-258): abort when no Pages root was found; relink
every collected page's `Parent` to the canonical Pages identifier; abort when
no Catalog root was found; rebuild the Pages dictionary with the new `Count`
and `Kids`; rebuild the Catalog dictionary (`Pages`, `PageMode`, drop
`Outlines`); set the trailer's `Root` and the max-id counter.  Returns the
output document together with the canonical Catalog and Pages identifiers. -/
def reassembleCore (cl : Classified) (dp : List (ObjectId × Obj)) (res : OutDoc) :
    Except PdfError (OutDoc × ObjectId × ObjectId) :=
  match cl.pages with
  | none => .error (.invalid "Pages root not found.")
  | some (pageId, pageObj) =>
    let objs1 := relinkPages dp pageId cl.resObjects
    match cl.catalog with
    | none => .error (.invalid "Catalog root not found.")
    | some (catalogId, catalogObj) =>
      let objs2 :=
        match pageObj.asDict with
        | some d => btInsert objs1 pageId (.dictionary (pagesRebuilt d dp))
        | none => objs1
      let objs3 :=
        match catalogObj.asDict with
        | some d =>
          let d1 := dictSet d "Pages" (.reference pageId)
          let d2 := dictSet d1 "PageMode" (.name "UseOutlines")
          let d3 := dictRemove d2 "Outlines"
          btInsert objs2 catalogId (.dictionary d3)
        | none => objs2
      .ok ({ res with objects := objs3
                      trailer := dictSet res.trailer "Root" (.reference catalogId)
                      maxId := objs3.length },
           catalogId, pageId)

/-- Modelled from the spec: lopdf `Document::renumber_objects()` (line 261),
the compacting graph-wide renumbering: same rewriting as
`renumber_objects_with` at offset 1, applied to the object map, the trailer
and the bookmark targets. -/
def renumberOut (d : OutDoc) : OutDoc :=
  let sig := renumMap d.objects 1
  { d with objects := d.objects.map (fun p => (substId sig p.1, substObj sig p.2))
           trailer := substPairs sig d.trailer
           maxId := d.objects.length
           bookmarks := d.bookmarks.map (fun p =>
             (p.1, { p.2 with bookmark :=
               { p.2.bookmark with target := substId sig p.2.bookmark.target } })) }

/-- First concrete (non-sentinel) bookmark target in a bookmark list. -/
def firstConcreteTarget : List (Nat × BookmarkEntry) → Option ObjectId
  | [] => none
  | e :: rest =>
    if e.2.bookmark.target == (0, 0) then firstConcreteTarget rest
    else some e.2.bookmark.target

/-- Rewrite each sentinel `(0, 0)` target to the next concrete target. -/
def adjustList : List (Nat × BookmarkEntry) → List (Nat × BookmarkEntry)
  | [] => []
  | e :: rest =>
    (if e.2.bookmark.target == (0, 0) then
      match firstConcreteTarget rest with
      | some t => (e.1, { e.2 with bookmark := { e.2.bookmark with target := t } })
      | none => e
     else e) :: adjustList rest

/-- Modelled from the spec: `adjust_zero_pages()` (line 264) rewrites every
bookmark whose target is the sentinel `(0, 0)` to the nearest following
bookmark's concrete target. -/
def adjustZeroPages (d : OutDoc) : OutDoc :=
  { d with bookmarks := adjustList d.bookmarks }

/-- Modelled from the spec: `build_outline()` (line 267) materialises the
bookmark forest into the object graph as a chain of Outline dictionaries
under one Outlines dictionary and returns the Outlines identifier, or `none`
when there are no bookmarks. -/
def buildOutline (d : OutDoc) : Option ObjectId × OutDoc :=
  match d.bookmarks with
  | [] => (none, d)
  | _ =>
    let oid : ObjectId := (d.maxId + 1, 0)
    let items := d.bookmarks.enum.map (fun p =>
      ((d.maxId + 2 + p.1, 0),
       Obj.dictionary
         [("Title", .string p.2.2.bookmark.title),
          ("Dest", .reference p.2.2.bookmark.target)]))
    let objs := btExtend
      (btInsert d.objects oid
        (.dictionary
          [("Type", .name "Outlines"),
           ("Count", .integer (Int.ofNat d.bookmarks.length))]))
      items
    (some oid, { d with objects := objs
                        maxId := d.maxId + 1 + d.bookmarks.length })

/-- The tail of `main` (lines 261-271): compacting renumber, zero-target
repair, outline construction, and attachment of the Outlines reference to
the object found at the (pre-compaction) catalog identifier when it is a
dictionary. -/
def finalize (out : OutDoc) (catalogId : ObjectId) : OutDoc :=
  let r1 := renumberOut out
  let r2 := adjustZeroPages r1
  let r3p := buildOutline r2
  match r3p.1 with
  | none => r3p.2
  | some n =>
    match btGet r3p.2.objects catalogId with
    | some (.dictionary dct) =>
      let objs := btInsert r3p.2.objects catalogId
        (.dictionary (dictSet dct "Outlines" (.reference n)))
      { r3p.2 with objects := objs }
    | _ => r3p.2

/-- The parsed command-line arguments (the `Args` struct). -/
structure Args where
  predir : Option String
  files : List String
  output : Option String

/-- `PathBuf::join` on our string paths. -/
def joinPath (a b : String) : String := a ++ "/" ++ b

/-- `Document::load` for each input path resolved against `predir`
(lines 25-34); a path the file system does not resolve yields the same
`Invalid` error with the offending path. -/
def loadDocs (predir : String) (files : List String) (fs : String → Option PdfDoc) :
    Except PdfError (List PdfDoc) :=
  files.mapM (fun f =>
    match fs (joinPath predir f) with
    | some d => Except.ok d
    | none => Except.error (.invalid (joinPath predir f ++ " is not found")))

/-- The whole of `main`, as a function of the parsed arguments and a file
system: the fewer-than-two-files check, loading, the per-document loop,
classification, reassembly, finalisation, and the save destination
`predir.join("merged.pdf")`.  A successful run returns the path written and
the document written there. -/
def mergeMain (args : Args) (fs : String → Option PdfDoc) :
    Except PdfError (String × OutDoc) :=
  if args.files.length < 2 then .error (.invalid "not enough files")
  else
    let predir := args.predir.getD "."
    match loadDocs predir args.files fs with
    | .error e => .error e
    | .ok docs =>
      match runMerge docs with
      | .error e => .error e
      | .ok (st, _) =>
        let cl := classify st.res.objects st.documentsObjects
        match reassembleCore cl st.documentsPages st.res with
        | .error e => .error e
        | .ok (out, catalogId, _) =>
          .ok (joinPath predir "merged.pdf", finalize out catalogId)

/-! ### Observers

Projections of runs onto discrete data, used to state the claims. -/

/-- Parents assigned to the per-document bookmarks, in input order. -/
def parentsOf (docs : List PdfDoc) : List (Option Nat) :=
  match runMerge docs with
  | .ok (_, infos) => infos.map (fun i => i.parent)
  | .error _ => []

/-- Arms of the `match layer` statement taken, in input order. -/
def armsOf (docs : List PdfDoc) : List Arm :=
  match runMerge docs with
  | .ok (_, infos) => infos.map (fun i => i.arm)
  | .error _ => []

/-- `last_layer` after each document, in input order. -/
def lastLayersOf (docs : List PdfDoc) : List Nat :=
  match runMerge docs with
  | .ok (_, infos) => infos.map (fun i => i.lastLayerAfter)
  | .error _ => []

/-- `last_layer` after the whole loop. -/
def finalLastLayer (docs : List PdfDoc) : Option Nat :=
  match runMerge docs with
  | .ok (st, _) => some st.lastLayer
  | .error _ => none

/-- Bookmark titles generated, in input order. -/
def titlesOf (docs : List PdfDoc) : List String :=
  match runMerge docs with
  | .ok (_, infos) => infos.map (fun i => i.title)
  | .error _ => []

/-- Bookmark targets, in input order. -/
def targetsOf (docs : List PdfDoc) : List ObjectId :=
  match runMerge docs with
  | .ok (_, infos) => infos.map (fun i => i.target)
  | .error _ => []

/-- Renumbering offsets used per document and the maximum identifier each
renumbering produced, in input order. -/
def offsetsOf (docs : List PdfDoc) : List (Nat × Nat) :=
  match runMerge docs with
  | .ok (_, infos) => infos.map (fun i => (i.offset, i.maxUsed))
  | .error _ => []

/-- The per-document page enumeration orders after renumbering. -/
def pagesOrdersOf (docs : List PdfDoc) : List (List ObjectId) :=
  match runMerge docs with
  | .ok (_, infos) => infos.map (fun i => i.pagesOrder)
  | .error _ => []

/-- The final `Kids` identifier list of the reassembled Pages object. -/
def kidsOfRun (docs : List PdfDoc) : Option (List ObjectId) :=
  match runMerge docs with
  | .error _ => none
  | .ok (st, _) =>
    let cl := classify st.res.objects st.documentsObjects
    match cl.pages with
    | none => none
    | some (pageId, _) =>
      match reassembleCore cl st.documentsPages st.res with
      | .error _ => none
      | .ok (out, _, _) =>
        match btGet out.objects pageId with
        | some (.dictionary d) =>
          match dictGet d "Kids" with
          | some (.array xs) =>
            some (xs.filterMap (fun o =>
              match o with
              | .reference r => some r
              | _ => none))
          | _ => none
        | _ => none

/-- The page order the spec's §4.3 sentence dictates: per document, in the
document's own enumeration order, documents concatenated in input order. -/
def claimedKidsOrder (docs : List PdfDoc) : List ObjectId :=
  (pagesOrdersOf docs).flatten

/-- Expected bookmark titles given the running page-title counter: an empty
document leaves the title empty and the counter unchanged; a document with
pages gets "Page n" and bumps the counter. -/
def titlesExpected (n : Nat) : List PdfDoc → List String
  | [] => []
  | d :: ds =>
    (if d.pages.isEmpty then "" else "Page " ++ toString n) ::
      titlesExpected (if d.pages.isEmpty then n else n + 1) ds

/-- Expected arm trace of the layer machine starting at a given layer. -/
def armsExpected (layer n : Nat) : List Arm :=
  match n with
  | 0 => []
  | n + 1 => (if layer = 1 then Arm.one else Arm.guarded) :: armsExpected (layer + 1) n

/-- Expected `last_layer` trace of the layer machine starting at a layer. -/
def layersExpected (layer n : Nat) : List Nat :=
  match n with
  | 0 => []
  | n + 1 => layer :: layersExpected (layer + 1) n

/-- The global `documents_objects` union a run accumulates. -/
def docsObjectsOf (docs : List PdfDoc) : List (ObjectId × Obj) :=
  match runMerge docs with
  | .ok (st, _) => st.documentsObjects
  | .error _ => []

/-- The path a successful run saves to. -/
def savedPath (args : Args) (fs : String → Option PdfDoc) : Option String :=
  match mergeMain args fs with
  | .ok r => some r.1
  | .error _ => none

/-- Integer value of a field of the canonical Catalog after classification. -/
def classifiedCatalogField (es : List (ObjectId × Obj)) (k : String) : Option Int :=
  match (classify [] es).catalog with
  | some (_, o) => (o.asDict.bind (fun d => dictGet d k)).bind Obj.asInt
  | none => none

/-- Identifier of the canonical Catalog after classification. -/
def classifiedCatalogId (es : List (ObjectId × Obj)) : Option ObjectId :=
  ((classify [] es).catalog).map (fun p => p.1)

/-! ### Example inputs

Concrete documents used for witnesses and counterexamples. -/

/-- A page dictionary with the given parent. -/
def pageDict (parent : ObjectId) : Obj :=
  .dictionary [("Type", .name "Page"), ("Parent", .reference parent)]

/-- A pages-root dictionary over the given kids. -/
def pagesDict (kids : List ObjectId) : Obj :=
  .dictionary
    [("Type", .name "Pages"),
     ("Kids", .array (kids.map Obj.reference)),
     ("Count", .integer (Int.ofNat kids.length))]

/-- A catalog dictionary pointing at the given pages root. -/
def catalogDict (pagesId : ObjectId) : Obj :=
  .dictionary [("Type", .name "Catalog"), ("Pages", .reference pagesId)]

/-- A well-formed one-page document. -/
def docOnePage : PdfDoc :=
  { objects :=
      [((1, 0), catalogDict (2, 0)),
       ((2, 0), pagesDict [(3, 0)]),
       ((3, 0), pageDict (2, 0))]
    pages := [(3, 0)]
    maxId := 3
    trailer := [("Root", .reference (1, 0))] }

/-- A two-page document whose page-tree order runs contrary to identifier
order: page 1 is object (3, 0) and page 2 is object (2, 0). -/
def docReversedPages : PdfDoc :=
  { objects :=
      [((1, 0), pagesDict [(3, 0), (2, 0)]),
       ((2, 0), pageDict (1, 0)),
       ((3, 0), pageDict (1, 0))]
    pages := [(3, 0), (2, 0)]
    maxId := 3
    trailer := [] }

/-- A document containing neither a Catalog nor a Pages root. -/
def docNoRoots : PdfDoc :=
  { objects := [((1, 0), .dictionary [("Type", .name "Font")])]
    pages := []
    maxId := 1
    trailer := [] }

/-- A document with a Pages root and one page but no Catalog. -/
def docNoCatalog : PdfDoc :=
  { objects :=
      [((1, 0), pagesDict [(2, 0)]),
       ((2, 0), pageDict (1, 0))]
    pages := [(2, 0)]
    maxId := 2
    trailer := [] }

/-- A document with no pages at all but with a Catalog and Pages root. -/
def docZeroPages : PdfDoc :=
  { objects :=
      [((1, 0), catalogDict (2, 0)),
       ((2, 0), pagesDict [])]
    pages := []
    maxId := 2
    trailer := [("Root", .reference (1, 0))] }

/-- Key-distinctness of a dictionary, an invariant of lopdf dictionaries. -/
def NodupKeys (d : List (String × Obj)) : Prop := (d.map Prod.fst).Nodup

instance (d : List (String × Obj)) : Decidable (NodupKeys d) :=
  inferInstanceAs (Decidable (d.map Prod.fst).Nodup)

/-- Left-biased choice on optional objects. -/
def optOr (a b : Option Obj) : Option Obj :=
  match a with
  | some v => some v
  | none => b

/-- Entries the classification loop treats as a Catalog. -/
def isCatalogB (p : ObjectId × Obj) : Bool := typeNameD p.2 == "Catalog"

/-- Entries the classification loop treats as a Pages root. -/
def isPagesB (p : ObjectId × Obj) : Bool := typeNameD p.2 == "Pages"

/-- The Pages dictionaries occurring in an entry list, in iteration order. -/
def pagesDictsOf (es : List (ObjectId × Obj)) : List (List (String × Obj)) :=
  es.filterMap (fun p => if isPagesB p then p.2.asDict else none)

/-- Identifiers of the globally collected pages, in `BTreeMap` order. -/
def collectedPageIds (docs : List PdfDoc) : List ObjectId :=
  match runMerge docs with
  | .ok (st, _) => st.documentsPages.map Prod.fst
  | .error _ => []

/-- Canonical (Catalog, Pages) identifier pair a run classifies, if any. -/
def canonicalIds (docs : List PdfDoc) : Option (ObjectId × ObjectId) :=
  match runMerge docs with
  | .error _ => none
  | .ok (st, _) =>
    let cl := classify st.res.objects st.documentsObjects
    match cl.catalog, cl.pages with
    | some (cid, _), some (pid, _) => some (cid, pid)
    | _, _ => none

/-- The object map of a successful reassembly. -/
def reassembledObjects (cl : Classified) (dp : List (ObjectId × Obj))
    (res : OutDoc) : Option (List (ObjectId × Obj)) :=
  match reassembleCore cl dp res with
  | .ok (out, _, _) => some out.objects
  | .error _ => none

/-- Integer value of a field of the object stored at an identifier. -/
def objIntField (m : List (ObjectId × Obj)) (id : ObjectId) (k : String) : Option Int :=
  (btGet m id).bind (fun o => (o.asDict.bind (fun d => dictGet d k)).bind Obj.asInt)

/-- Two Catalog objects carrying a distinguishing `Marker` field. -/
def exTwoCatalogs : List (ObjectId × Obj) :=
  [((1, 0), .dictionary [("Type", .name "Catalog"), ("Marker", .integer 1)]),
   ((2, 0), .dictionary [("Type", .name "Catalog"), ("Marker", .integer 2)])]

/-- Two Pages objects sharing key `K` with different values. -/
def exTwoPages : List (ObjectId × Obj) :=
  [((1, 0), .dictionary [("Type", .name "Pages"), ("K", .integer 1)]),
   ((2, 0), .dictionary [("Type", .name "Pages"), ("K", .integer 2), ("M", .integer 9)])]

/-- The object of the last Catalog-typed entry of a list, with a default. -/
def lastObjD (es : List (ObjectId × Obj)) (dflt : Obj) : Obj :=
  ((es.filter isCatalogB).getLast?).elim dflt Prod.snd

/-- Value stored under key `k` in the classified canonical Pages dictionary. -/
def pagesVal (c : Classified) (k : String) : Option Obj :=
  c.pages.bind (fun p => p.2.asDict.bind (fun d => dictGet d k))

/-- First value for key `k` among the Pages dictionaries of an entry list. -/
def headVal (es : List (ObjectId × Obj)) (k : String) : Option Obj :=
  ((pagesDictsOf es).filterMap (fun d => dictGet d k)).head?

/-- Invariant of the classification accumulator: the canonical Pages object is
a dictionary with distinct keys. -/
def GoodAcc (c : Classified) : Prop :=
  ∀ x ∈ c.pages, ∃ d, x.2 = Obj.dictionary d ∧ NodupKeys d

/-- A file system serving two well-formed one-page documents. -/
def exFs (p : String) : Option PdfDoc :=
  if p == "./a.pdf" then some docOnePage
  else if p == "./b.pdf" then some docOnePage
  else none

/-- A file system serving two rootless documents. -/
def exFsNoRoots (p : String) : Option PdfDoc :=
  if p == "./a.pdf" then some docNoRoots
  else if p == "./b.pdf" then some docNoRoots
  else none

/-- A file system serving two documents that have Pages roots but no
Catalog. -/
def exFsNoCatalog (p : String) : Option PdfDoc :=
  if p == "./a.pdf" then some docNoCatalog
  else if p == "./b.pdf" then some docNoCatalog
  else none

/-- Arguments naming the two files of `exFs`. -/
def exArgs : Args := { predir := none, files := ["a.pdf", "b.pdf"], output := none }

/-! ### Helper lemmas: maps and dictionaries -/

theorem btGet_nil (k : ObjectId) : btGet [] k = none := rfl

theorem btGet_cons (a : ObjectId) (v : Obj) (m : List (ObjectId × Obj)) (k : ObjectId) :
    btGet ((a, v) :: m) k = if a = k then some v else btGet m k := by
  by_cases h : a = k <;> simp [btGet, List.find?_cons, h]

theorem btGet_insert_self (m : List (ObjectId × Obj)) (k : ObjectId) (v : Obj) :
    btGet (btInsert m k v) k = some v := by
  induction m with
  | nil => simp [btInsert, btGet_cons]
  | cons hd tl ih =>
    obtain ⟨k', v'⟩ := hd
    by_cases hlt : idLt k k' = true
    · simp [btInsert, hlt, btGet_cons]
    · by_cases heq : k = k'
      · subst heq
        simp [btInsert, hlt, btGet_cons]
      · have hbeq : (k == k') = false := by simp [heq]
        simp only [btInsert, hlt, if_false, Bool.false_eq_true, hbeq]
        rw [btGet_cons, if_neg (Ne.symm heq)]
        exact ih

theorem btGet_insert_ne (m : List (ObjectId × Obj)) (k : ObjectId) (v : Obj)
    (k' : ObjectId) (h : k' ≠ k) :
    btGet (btInsert m k v) k' = btGet m k' := by
  induction m with
  | nil => simp [btInsert, btGet_cons, btGet_nil, Ne.symm h]
  | cons hd tl ih =>
    obtain ⟨a, w⟩ := hd
    by_cases hlt : idLt k a = true
    · simp only [btInsert, hlt, if_true]
      rw [btGet_cons, if_neg (Ne.symm h)]
    · by_cases heq : k = a
      · subst heq
        simp only [btInsert, hlt, if_false, Bool.false_eq_true, beq_self_eq_true, if_true]
        rw [btGet_cons, btGet_cons, if_neg (Ne.symm h), if_neg (Ne.symm h)]
      · have hbeq : (k == a) = false := by simp [heq]
        simp only [btInsert, hlt, if_false, Bool.false_eq_true, hbeq]
        rw [btGet_cons, btGet_cons]
        by_cases ha : a = k'
        · rw [if_pos ha, if_pos ha]
        · rw [if_neg ha, if_neg ha]
          exact ih

theorem map_fst_btInsert (m : List (ObjectId × Obj)) (k : ObjectId) (v : Obj)
    (a : ObjectId) :
    a ∈ (btInsert m k v).map Prod.fst ↔ a = k ∨ a ∈ m.map Prod.fst := by
  induction m with
  | nil => simp [btInsert]
  | cons hd tl ih =>
    obtain ⟨b, w⟩ := hd
    by_cases hlt : idLt k b = true
    · simp only [btInsert, hlt, if_true, List.map_cons, List.mem_cons]
    · by_cases heq : k = b
      · subst heq
        simp only [btInsert, hlt, if_false, Bool.false_eq_true, beq_self_eq_true,
          if_true, List.map_cons, List.mem_cons]
        tauto
      · have hbeq : (k == b) = false := by simp [heq]
        simp only [btInsert, hlt, if_false, Bool.false_eq_true, hbeq,
          List.map_cons, List.mem_cons, ih]
        tauto

theorem btGet_isSome_iff (m : List (ObjectId × Obj)) (k : ObjectId) :
    (btGet m k).isSome = true ↔ k ∈ m.map Prod.fst := by
  induction m with
  | nil => simp [btGet_nil]
  | cons hd tl ih =>
    obtain ⟨a, v⟩ := hd
    rw [List.map_cons, List.mem_cons, btGet_cons]
    by_cases h : a = k
    · simp [h]
    · rw [if_neg h, ih]
      have : ¬ k = a := fun hh => h hh.symm
      simp [this]

theorem dictGet_nil (k : String) : dictGet [] k = none := rfl

theorem dictGet_cons (a : String) (v : Obj) (d : List (String × Obj)) (k : String) :
    dictGet ((a, v) :: d) k = if a = k then some v else dictGet d k := by
  by_cases h : a = k <;> simp [dictGet, List.find?_cons, h]

theorem dictGet_eq_none_iff (d : List (String × Obj)) (k : String) :
    dictGet d k = none ↔ k ∉ d.map Prod.fst := by
  induction d with
  | nil => simp [dictGet_nil]
  | cons hd tl ih =>
    obtain ⟨a, v⟩ := hd
    rw [List.map_cons, dictGet_cons]
    by_cases h : a = k
    · simp [h]
    · rw [if_neg h, ih]
      have : ¬ k = a := fun hh => h hh.symm
      simp [this]

theorem dictGet_replace_ne (d : List (String × Obj)) (k k' : String) (v : Obj)
    (h : k' ≠ k) :
    dictGet (d.map (fun p => if p.1 == k then (k, v) else p)) k' = dictGet d k' := by
  induction d with
  | nil => rfl
  | cons hd tl ih =>
    obtain ⟨b, u⟩ := hd
    rw [List.map_cons]
    by_cases hb : b = k
    · have hc : ((b, u).1 == k) = true := by simp [hb]
      rw [if_pos hc, dictGet_cons, dictGet_cons,
        if_neg (Ne.symm h), if_neg (by rw [hb]; exact fun hh => h hh.symm)]
      exact ih
    · have hc : ¬ ((b, u).1 == k) = true := by simp [hb]
      rw [if_neg hc, dictGet_cons, dictGet_cons]
      by_cases hb' : b = k'
      · rw [if_pos hb', if_pos hb']
      · rw [if_neg hb', if_neg hb']
        exact ih

theorem dictGet_replace_self (d : List (String × Obj)) (k : String) (v : Obj)
    (h : d.any (fun p => p.1 == k) = true) :
    dictGet (d.map (fun p => if p.1 == k then (k, v) else p)) k = some v := by
  induction d with
  | nil => simp at h
  | cons hd tl ih =>
    obtain ⟨b, u⟩ := hd
    rw [List.map_cons]
    by_cases hb : b = k
    · have hc : ((b, u).1 == k) = true := by simp [hb]
      rw [if_pos hc, dictGet_cons, if_pos rfl]
    · have hc : ¬ ((b, u).1 == k) = true := by simp [hb]
      have h' : tl.any (fun p => p.1 == k) = true := by
        rw [List.any_cons] at h
        simpa [hb] using h
      rw [if_neg hc, dictGet_cons, if_neg hb]
      exact ih h'

theorem dictGet_set_self (d : List (String × Obj)) (k : String) (v : Obj) :
    dictGet (dictSet d k v) k = some v := by
  unfold dictSet
  by_cases h : d.any (fun p => p.1 == k) = true
  · rw [if_pos h]
    exact dictGet_replace_self d k v h
  · have hnone : dictGet d k = none := by
      rw [dictGet_eq_none_iff]
      intro hmem
      apply h
      rw [List.any_eq_true]
      obtain ⟨p, hp, hfst⟩ := List.mem_map.mp hmem
      exact ⟨p, hp, by simp [hfst]⟩
    have step : ∀ e : List (String × Obj), dictGet e k = none →
        dictGet (e ++ [(k, v)]) k = some v := by
      intro e
      induction e with
      | nil => intro _; simp [dictGet_cons]
      | cons hd tl ih2 =>
        obtain ⟨b, u⟩ := hd
        intro he
        rw [dictGet_cons] at he
        by_cases hb : b = k
        · rw [if_pos hb] at he
          exact absurd he (by simp)
        · rw [if_neg hb] at he
          rw [List.cons_append, dictGet_cons, if_neg hb]
          exact ih2 he
    rw [if_neg h]
    exact step d hnone

theorem dictGet_append_singleton_ne (d : List (String × Obj)) (k k' : String)
    (v : Obj) (h : k' ≠ k) :
    dictGet (d ++ [(k, v)]) k' = dictGet d k' := by
  induction d with
  | nil => simp [dictGet_cons, Ne.symm h, dictGet_nil]
  | cons hd tl ih =>
    obtain ⟨b, u⟩ := hd
    rw [List.cons_append, dictGet_cons, dictGet_cons]
    by_cases hb : b = k'
    · rw [if_pos hb, if_pos hb]
    · rw [if_neg hb, if_neg hb]
      exact ih

theorem dictGet_set_ne (d : List (String × Obj)) (k : String) (v : Obj)
    (k' : String) (h : k' ≠ k) :
    dictGet (dictSet d k v) k' = dictGet d k' := by
  unfold dictSet
  by_cases ha : d.any (fun p => p.1 == k) = true
  · rw [if_pos ha]
    exact dictGet_replace_ne d k k' v h
  · rw [if_neg ha]
    exact dictGet_append_singleton_ne d k k' v h

theorem optOr_some (v : Obj) (b : Option Obj) : optOr (some v) b = some v := rfl

theorem optOr_none (b : Option Obj) : optOr none b = b := rfl

theorem optOr_assoc (a b c : Option Obj) :
    optOr (optOr a b) c = optOr a (optOr b c) := by
  cases a <;> rfl

theorem head?_append_opt (l l' : List Obj) :
    (l ++ l').head? = optOr l.head? l'.head? := by
  cases l <;> rfl

theorem map_fst_replace (d : List (String × Obj)) (k : String) (v : Obj) :
    (d.map (fun p => if p.1 == k then (k, v) else p)).map Prod.fst = d.map Prod.fst := by
  induction d with
  | nil => rfl
  | cons hd tl ih =>
    obtain ⟨b, u⟩ := hd
    rw [List.map_cons, List.map_cons, List.map_cons]
    by_cases hb : b = k
    · have hc : ((b, u).1 == k) = true := by simp [hb]
      rw [if_pos hc, ih]
      simp [hb]
    · have hc : ¬ ((b, u).1 == k) = true := by simp [hb]
      rw [if_neg hc, ih]

theorem any_key_iff_mem (d : List (String × Obj)) (k : String) :
    d.any (fun p => p.1 == k) = true ↔ k ∈ d.map Prod.fst := by
  rw [List.any_eq_true]
  constructor
  · rintro ⟨p, hp, hk⟩
    have : p.1 = k := by simpa using hk
    exact this ▸ List.mem_map_of_mem Prod.fst hp
  · intro hm
    obtain ⟨p, hp, hf⟩ := List.mem_map.mp hm
    exact ⟨p, hp, by simp [hf]⟩

theorem nodupKeys_dictSet (d : List (String × Obj)) (k : String) (v : Obj)
    (h : NodupKeys d) : NodupKeys (dictSet d k v) := by
  unfold dictSet NodupKeys
  by_cases ha : d.any (fun p => p.1 == k) = true
  · rw [if_pos ha, map_fst_replace]
    exact h
  · have hk : k ∉ d.map Prod.fst := fun hm => ha ((any_key_iff_mem d k).mpr hm)
    rw [if_neg ha, List.map_append]
    simp only [List.map_cons, List.map_nil]
    rw [List.nodup_append]
    refine ⟨h, List.nodup_singleton k, ?_⟩
    intro a ha' hb'
    rw [List.mem_singleton] at hb'
    exact hk (hb' ▸ ha')

theorem nodupKeys_dictExtend (a b : List (String × Obj)) (h : NodupKeys a) :
    NodupKeys (dictExtend a b) := by
  induction b generalizing a with
  | nil => exact h
  | cons hd tl ih =>
    obtain ⟨k0, v0⟩ := hd
    simp only [dictExtend, List.foldl_cons] at ih ⊢
    exact ih (dictSet a k0 v0) (nodupKeys_dictSet a k0 v0 h)

theorem dictGet_extend (a b : List (String × Obj)) (k : String)
    (hb : NodupKeys b) :
    dictGet (dictExtend a b) k = optOr (dictGet b k) (dictGet a k) := by
  induction b generalizing a with
  | nil => rfl
  | cons hd tl ih =>
    obtain ⟨k0, v0⟩ := hd
    have hnd : NodupKeys tl := by
      unfold NodupKeys at hb ⊢
      rw [List.map_cons] at hb
      exact (List.nodup_cons.mp hb).2
    have hk0 : k0 ∉ tl.map Prod.fst := by
      unfold NodupKeys at hb
      rw [List.map_cons] at hb
      exact (List.nodup_cons.mp hb).1
    simp only [dictExtend, List.foldl_cons] at ih ⊢
    rw [ih (dictSet a k0 v0) hnd]
    by_cases hk : k = k0
    · subst hk
      have hnone : dictGet tl k = none := (dictGet_eq_none_iff tl k).mpr hk0
      rw [hnone, dictGet_cons, if_pos rfl, dictGet_set_self]
      rfl
    · rw [dictGet_cons, if_neg (fun hh => hk hh.symm), dictGet_set_ne a k0 v0 k hk]

theorem typeNameD_dict (o : Obj) (h : typeNameD o ≠ "") :
    ∃ d, o = .dictionary d := by
  cases o <;> first
    | exact ⟨_, rfl⟩
    | exact absurd rfl h

/-! ### Helper lemmas: the classification pass -/

theorem classifyStep_catalog_of_ne (c : Classified) (e : ObjectId × Obj)
    (h : ¬ typeNameD e.2 = "Catalog") :
    (classifyStep c e).catalog = c.catalog := by
  simp only [classifyStep, beq_iff_eq]
  rw [if_neg h]
  by_cases h2 : typeNameD e.2 = "Pages"
  · rw [if_pos h2]
    cases hd : e.2.asDict with
    | none => rfl
    | some d => rfl
  · rw [if_neg h2]
    by_cases h3 : typeNameD e.2 = "Page"
    · rw [if_pos h3]
    · rw [if_neg h3]
      by_cases h4 : typeNameD e.2 = "Outlines"
      · rw [if_pos h4]
      · rw [if_neg h4]
        by_cases h5 : typeNameD e.2 = "Outline"
        · rw [if_pos h5]
        · rw [if_neg h5]

theorem classifyStep_pages_of_ne (c : Classified) (e : ObjectId × Obj)
    (h : ¬ typeNameD e.2 = "Pages") :
    (classifyStep c e).pages = c.pages := by
  simp only [classifyStep, beq_iff_eq]
  by_cases h1 : typeNameD e.2 = "Catalog"
  · rw [if_pos h1]
  · rw [if_neg h1, if_neg h]
    by_cases h3 : typeNameD e.2 = "Page"
    · rw [if_pos h3]
    · rw [if_neg h3]
      by_cases h4 : typeNameD e.2 = "Outlines"
      · rw [if_pos h4]
      · rw [if_neg h4]
        by_cases h5 : typeNameD e.2 = "Outline"
        · rw [if_pos h5]
        · rw [if_neg h5]

theorem classifyStep_catalog_eq (c : Classified) (e : ObjectId × Obj)
    (h : typeNameD e.2 = "Catalog") :
    (classifyStep c e).catalog =
      some ((match c.catalog with
             | some x => x.1
             | none => e.1), e.2) := by
  simp only [classifyStep, beq_iff_eq]
  rw [if_pos h]
  cases c.catalog with
  | none => rfl
  | some x => rfl

theorem classifyStep_pages_eq (c : Classified) (e : ObjectId × Obj)
    (d : List (String × Obj)) (h : typeNameD e.2 = "Pages")
    (hd : e.2.asDict = some d) :
    (classifyStep c e).pages =
      some ((match c.pages with
             | some x => x.1
             | none => e.1),
            Obj.dictionary
              (match c.pages with
               | some x =>
                 (match x.2.asDict with
                  | some oldD => dictExtend d oldD
                  | none => d)
               | none => d)) := by
  simp only [classifyStep, beq_iff_eq]
  rw [if_neg (by rw [h]; decide), if_pos h, hd]
  cases c.pages with
  | none => rfl
  | some x =>
    obtain ⟨xi, xo⟩ := x
    cases hx : xo.asDict with
    | none => rfl
    | some oldD => rfl

theorem foldl_classify_catalog (es : List (ObjectId × Obj)) (c : Classified) :
    (es.foldl classifyStep c).catalog =
      match c.catalog with
      | some x => some (x.1, lastObjD es x.2)
      | none => (es.find? isCatalogB).map (fun f => (f.1, lastObjD es f.2)) := by
  induction es using List.reverseRecOn with
  | nil =>
    cases hc : c.catalog with
    | none => simp [hc]
    | some x => simp [hc, lastObjD]
  | append_singleton l e ih =>
    rw [List.foldl_append, List.foldl_cons, List.foldl_nil]
    by_cases he : typeNameD e.2 = "Catalog"
    · have heB : isCatalogB e = true := by simp [isCatalogB, he]
      rw [classifyStep_catalog_eq _ _ he, ih]
      have hfil : (l ++ [e]).filter isCatalogB = l.filter isCatalogB ++ [e] := by
        rw [List.filter_append]
        simp [heB]
      have hlast : ∀ dflt, lastObjD (l ++ [e]) dflt = e.2 := by
        intro dflt
        unfold lastObjD
        rw [hfil, List.getLast?_concat]
        rfl
      cases hc : c.catalog with
      | some x => simp [hc, hlast]
      | none =>
        cases hf : l.find? isCatalogB with
        | some f =>
          have hfind : (l ++ [e]).find? isCatalogB = some f := by
            rw [List.find?_append, hf]
            rfl
          simp [hf, hfind, hlast]
        | none =>
          have hfind : (l ++ [e]).find? isCatalogB = some e := by
            rw [List.find?_append, hf]
            simp [heB]
          simp [hf, hfind, hlast]
    · have heB : isCatalogB e = false := by simp [isCatalogB, he]
      rw [classifyStep_catalog_of_ne _ _ he, ih]
      have hfil : (l ++ [e]).filter isCatalogB = l.filter isCatalogB := by
        rw [List.filter_append]
        simp [heB]
      have hfind : (l ++ [e]).find? isCatalogB = l.find? isCatalogB := by
        rw [List.find?_append]
        cases hf : l.find? isCatalogB with
        | some f => rfl
        | none => simp [heB]
      have hlast : ∀ dflt, lastObjD (l ++ [e]) dflt = lastObjD l dflt := by
        intro dflt
        unfold lastObjD
        rw [hfil]
      cases hc : c.catalog with
      | some x => simp [hlast]
      | none => simp [hfind, hlast]

theorem optOr_none_right (a : Option Obj) : optOr a none = a := by
  cases a <;> rfl

theorem pagesDictsOf_append_pages (l : List (ObjectId × Obj)) (e : ObjectId × Obj)
    (d : List (String × Obj)) (he : isPagesB e = true) (hd : e.2.asDict = some d) :
    pagesDictsOf (l ++ [e]) = pagesDictsOf l ++ [d] := by
  unfold pagesDictsOf
  rw [List.filterMap_append]
  simp [he, hd]

theorem pagesDictsOf_append_other (l : List (ObjectId × Obj)) (e : ObjectId × Obj)
    (he : isPagesB e = false) :
    pagesDictsOf (l ++ [e]) = pagesDictsOf l := by
  unfold pagesDictsOf
  rw [List.filterMap_append]
  simp [he]

theorem headVal_append_pages (l : List (ObjectId × Obj)) (e : ObjectId × Obj)
    (d : List (String × Obj)) (he : isPagesB e = true) (hd : e.2.asDict = some d)
    (k : String) :
    headVal (l ++ [e]) k = optOr (headVal l k) (dictGet d k) := by
  unfold headVal
  rw [pagesDictsOf_append_pages l e d he hd, List.filterMap_append, head?_append_opt]
  cases hg : dictGet d k <;> simp [hg, optOr_none_right]

theorem foldl_classify_pages_fst (es : List (ObjectId × Obj)) (c : Classified) :
    ((es.foldl classifyStep c).pages).map Prod.fst =
      match c.pages with
      | some x => some x.1
      | none => (es.find? isPagesB).map Prod.fst := by
  induction es using List.reverseRecOn with
  | nil => cases hc : c.pages <;> simp [hc]
  | append_singleton l e ih =>
    rw [List.foldl_append, List.foldl_cons, List.foldl_nil]
    by_cases he : typeNameD e.2 = "Pages"
    · have heB : isPagesB e = true := by simp [isPagesB, he]
      obtain ⟨d, hed⟩ := typeNameD_dict e.2 (by rw [he]; decide)
      have hd : e.2.asDict = some d := by rw [hed]; rfl
      rw [classifyStep_pages_eq _ _ d he hd]
      have hfind : (l ++ [e]).find? isPagesB = (l.find? isPagesB).or (some e) := by
        rw [List.find?_append]
        simp [heB]
      cases hc : c.pages with
      | some x =>
        have hm := ih
        rw [hc] at hm
        obtain ⟨y, hy, hy1⟩ := Option.map_eq_some'.mp hm
        rw [hy]
        simp [hc, hy1]
      | none =>
        have hm := ih
        rw [hc] at hm
        cases hf : l.find? isPagesB with
        | some f =>
          rw [hf] at hm
          obtain ⟨y, hy, hy1⟩ := Option.map_eq_some'.mp hm
          rw [hy]
          simp [hc, hfind, hf, hy1]
        | none =>
          rw [hf] at hm
          have hnone := Option.map_eq_none'.mp hm
          rw [hnone]
          simp [hc, hfind, hf]
    · have heB : isPagesB e = false := by simp [isPagesB, he]
      rw [classifyStep_pages_of_ne _ _ he, ih]
      have hfind : (l ++ [e]).find? isPagesB = l.find? isPagesB := by
        rw [List.find?_append]
        cases hf : l.find? isPagesB with
        | some f => rfl
        | none => simp [heB]
      cases hc : c.pages <;> simp [hfind]

theorem headVal_append_other (l : List (ObjectId × Obj)) (e : ObjectId × Obj)
    (he : isPagesB e = false) (k : String) :
    headVal (l ++ [e]) k = headVal l k := by
  unfold headVal
  rw [pagesDictsOf_append_other l e he]

theorem foldl_classify_pages_val (es : List (ObjectId × Obj)) (c : Classified)
    (hnd : ∀ d ∈ pagesDictsOf es, NodupKeys d) (hc : GoodAcc c) :
    GoodAcc (es.foldl classifyStep c) ∧
    ∀ k, pagesVal (es.foldl classifyStep c) k = optOr (pagesVal c k) (headVal es k) := by
  induction es using List.reverseRecOn with
  | nil =>
    refine ⟨hc, fun k => ?_⟩
    rw [show headVal [] k = none from rfl, optOr_none_right]
    rfl
  | append_singleton l e ih =>
    rw [List.foldl_append, List.foldl_cons, List.foldl_nil]
    by_cases he : typeNameD e.2 = "Pages"
    · have heB : isPagesB e = true := by simp [isPagesB, he]
      obtain ⟨d, hed⟩ := typeNameD_dict e.2 (by rw [he]; decide)
      have hd : e.2.asDict = some d := by rw [hed]; rfl
      have hndl : ∀ d' ∈ pagesDictsOf l, NodupKeys d' := by
        intro d' hd'
        exact hnd d'
          (by rw [pagesDictsOf_append_pages l e d heB hd]; exact List.mem_append_left _ hd')
      have hndd : NodupKeys d := by
        apply hnd d
        rw [pagesDictsOf_append_pages l e d heB hd]
        exact List.mem_append_right _ (List.mem_singleton_self d)
      obtain ⟨ihG, ihV⟩ := ih hndl
      cases hR : (List.foldl classifyStep c l).pages with
      | none =>
        have hstep : (classifyStep (List.foldl classifyStep c l) e).pages
            = some (e.1, Obj.dictionary d) := by
          rw [classifyStep_pages_eq _ _ d he hd, hR]
        constructor
        · intro x hx
          rw [Option.mem_def, hstep, Option.some_inj] at hx
          exact ⟨d, by rw [← hx], hndd⟩
        · intro k
          have hlhs : pagesVal (classifyStep (List.foldl classifyStep c l) e) k
              = dictGet d k := by
            unfold pagesVal
            rw [hstep]
            rfl
          have hRv : pagesVal (List.foldl classifyStep c l) k = none := by
            unfold pagesVal
            rw [hR]
            rfl
          have hv := ihV k
          rw [hRv] at hv
          have hcn : pagesVal c k = none := by
            cases hpc : pagesVal c k with
            | none => rfl
            | some v =>
              rw [hpc, optOr_some] at hv
              exact absurd hv (by simp)
          have hhl : headVal l k = none := by
            rw [hcn, optOr_none] at hv
            exact hv.symm
          rw [hlhs, headVal_append_pages l e d heB hd k, hhl, hcn]
          rfl
      | some x =>
        obtain ⟨oldD, hx2, hxnd⟩ := ihG x (by rw [hR]; rfl)
        have hstep : (classifyStep (List.foldl classifyStep c l) e).pages
            = some (x.1, Obj.dictionary (dictExtend d oldD)) := by
          rw [classifyStep_pages_eq _ _ d he hd, hR]
          simp only [hx2, Obj.asDict]
        constructor
        · intro y hy
          rw [Option.mem_def, hstep, Option.some_inj] at hy
          exact ⟨dictExtend d oldD, by rw [← hy], nodupKeys_dictExtend d oldD hndd⟩
        · intro k
          have hlhs : pagesVal (classifyStep (List.foldl classifyStep c l) e) k
              = dictGet (dictExtend d oldD) k := by
            unfold pagesVal
            rw [hstep]
            rfl
          have hRv : pagesVal (List.foldl classifyStep c l) k = dictGet oldD k := by
            unfold pagesVal
            rw [hR]
            simp only [Option.some_bind, hx2, Obj.asDict]
          have hv := ihV k
          rw [hRv] at hv
          rw [hlhs, dictGet_extend d oldD k hxnd, hv,
            headVal_append_pages l e d heB hd k, optOr_assoc]
    · have heB : isPagesB e = false := by simp [isPagesB, he]
      have hndl : ∀ d' ∈ pagesDictsOf l, NodupKeys d' := by
        intro d' hd'
        exact hnd d' (by rw [pagesDictsOf_append_other l e heB]; exact hd')
      obtain ⟨ihG, ihV⟩ := ih hndl
      constructor
      · intro x hx
        rw [Option.mem_def, classifyStep_pages_of_ne _ _ he] at hx
        exact ihG x hx
      · intro k
        have hlhs : pagesVal (classifyStep (List.foldl classifyStep c l) e) k
            = pagesVal (List.foldl classifyStep c l) k := by
          unfold pagesVal
          rw [classifyStep_pages_of_ne _ _ he]
        rw [hlhs, headVal_append_other l e heB k]
        exact ihV k

/-! ### Claim C2 -/

/-- C2 counterexample: in `exTwoCatalogs` the first Catalog (identifier
(1, 0)) carries `Marker = 1` and the second carries `Marker = 2`.  The
classification keeps the first identifier but the canonical Catalog's
dictionary is the second one's: its `Marker` is 2, not 1, so later Catalog
objects are not "discarded entirely" and the first Catalog's fields do not
survive. -/
theorem catalog_merge_counterexample :
    objIntField exTwoCatalogs (1, 0) "Marker" = some 1 ∧
    objIntField exTwoCatalogs (2, 0) "Marker" = some 2 ∧
    classifiedCatalogId exTwoCatalogs = some (1, 0) ∧
    classifiedCatalogField exTwoCatalogs "Marker" = some 2 ∧
    ¬ classifiedCatalogField exTwoCatalogs "Marker" = some 1 := by
  decide

/-- C2 (amended): when several Catalog objects occur, the canonical Catalog
keeps the identifier of the first Catalog seen, but its object is the LAST
Catalog object seen — each later Catalog replaces the previous dictionary
wholesale (nothing is merged), so it is the last Catalog's fields, not the
first's, that survive into the output graph. -/
theorem catalog_first_id_last_object (es r0 : List (ObjectId × Obj)) :
    (classify r0 es).catalog =
      (es.find? isCatalogB).map (fun f => (f.1, lastObjD es f.2)) := by
  unfold classify
  rw [foldl_classify_catalog]

/-! ### Claim C3 -/

/-- C3: when several Pages objects occur, the canonical identifier is the
first Pages object's and the merged dictionary is first-wins: for every key,
the value is the first value among the Pages dictionaries in iteration
order, so a value already merged is never overwritten by a later
document's. -/
theorem pages_merge_first_wins (es r0 : List (ObjectId × Obj))
    (hnd : ∀ d ∈ pagesDictsOf es, NodupKeys d) :
    ((classify r0 es).pages).map Prod.fst = (es.find? isPagesB).map Prod.fst ∧
    ∀ k, pagesVal (classify r0 es) k = headVal es k := by
  constructor
  · unfold classify
    rw [foldl_classify_pages_fst]
  · intro k
    unfold classify
    have hinit : GoodAcc { catalog := none, pages := none, resObjects := r0 } := by
      intro x hx
      exact absurd hx (by simp)
    have hv := (foldl_classify_pages_val es
      { catalog := none, pages := none, resObjects := r0 } hnd hinit).2 k
    rw [hv]
    rfl

/-- C3 witness: on `exTwoPages`, whose two Pages dictionaries both carry key
`K`, the canonical identifier is the first Pages object's (1, 0) and the
merged value at `K` is the first document's (the integer 1). -/
theorem pages_merge_first_wins_witness :
    ((classify [] exTwoPages).pages).map Prod.fst =
      (exTwoPages.find? isPagesB).map Prod.fst ∧
    pagesVal (classify [] exTwoPages) "K" = headVal exTwoPages "K" ∧
    headVal exTwoPages "K" = some (Obj.integer 1) := by
  have h := pages_merge_first_wins exTwoPages [] (by decide)
  exact ⟨h.1, h.2 "K", rfl⟩

/-! ### Claim C7 -/

theorem classify_pages_none_iff (es r0 : List (ObjectId × Obj)) :
    (classify r0 es).pages = none ↔ ∀ p ∈ es, isPagesB p = false := by
  unfold classify
  rw [← Option.map_eq_none' (f := Prod.fst), foldl_classify_pages_fst]
  show (es.find? isPagesB).map Prod.fst = none ↔ _
  rw [Option.map_eq_none', List.find?_eq_none]
  simp [Bool.not_eq_true]

theorem classify_catalog_none_iff (es r0 : List (ObjectId × Obj)) :
    (classify r0 es).catalog = none ↔ ∀ p ∈ es, isCatalogB p = false := by
  unfold classify
  rw [foldl_classify_catalog]
  show (es.find? isCatalogB).map _ = none ↔ _
  rw [Option.map_eq_none', List.find?_eq_none]
  simp [Bool.not_eq_true]

/-- C7: when the (renumbered) object union contains no Catalog-typed object,
or no Pages-typed object, the merge aborts after the classification scan
with the corresponding structural error — "Pages root not found." when no
Pages object exists (this check runs first, so it also wins when both are
missing), otherwise "Catalog root not found." — and no output file is
produced (`savedPath` is `none`; the save step is only reached on success). -/
theorem missing_root_aborts (args : Args) (fs : String → Option PdfDoc)
    (docs : List PdfDoc)
    (hn : ¬ args.files.length < 2)
    (hload : loadDocs (args.predir.getD ".") args.files fs = .ok docs)
    (hrunOk : (runMerge docs).isOk = true)
    (hmiss : (∀ p ∈ docsObjectsOf docs, isCatalogB p = false) ∨
             (∀ p ∈ docsObjectsOf docs, isPagesB p = false)) :
    mergeMain args fs =
      .error (.invalid
        (if (docsObjectsOf docs).any isPagesB then "Catalog root not found."
         else "Pages root not found.")) ∧
    savedPath args fs = none := by
  cases hrun : runMerge docs with
  | error e =>
    rw [hrun] at hrunOk
    simp [Except.isOk, Except.toBool] at hrunOk
  | ok r =>
    obtain ⟨st, infos⟩ := r
    have hdo : docsObjectsOf docs = st.documentsObjects := by
      unfold docsObjectsOf
      rw [hrun]
    rw [hdo] at hmiss ⊢
    have hmain : mergeMain args fs = .error (.invalid
        (if st.documentsObjects.any isPagesB then "Catalog root not found."
         else "Pages root not found.")) := by
      unfold mergeMain
      rw [if_neg hn]
      simp only [hload, hrun]
      rcases hmiss with hC | hP
      · by_cases hPany : st.documentsObjects.any isPagesB = true
        · rw [if_pos hPany]
          have hcat : (classify st.res.objects st.documentsObjects).catalog = none :=
            (classify_catalog_none_iff _ _).mpr hC
          have hpag : (classify st.res.objects st.documentsObjects).pages ≠ none := by
            intro hnone
            have hall := (classify_pages_none_iff _ _).mp hnone
            rw [List.any_eq_true] at hPany
            obtain ⟨x, hx, hxt⟩ := hPany
            rw [hall x hx] at hxt
            exact absurd hxt (by simp)
          obtain ⟨pp, hpp⟩ := Option.ne_none_iff_exists'.mp hpag
          obtain ⟨pid, pobj⟩ := pp
          have hre : reassembleCore (classify st.res.objects st.documentsObjects)
              st.documentsPages st.res = .error (.invalid "Catalog root not found.") := by
            unfold reassembleCore
            rw [hpp, hcat]
          rw [hre]
        · rw [if_neg hPany]
          have hall : ∀ p ∈ st.documentsObjects, isPagesB p = false := by
            intro p hp
            rcases Bool.eq_false_or_eq_true (isPagesB p) with h | h
            · exact absurd (List.any_eq_true.mpr ⟨p, hp, h⟩) hPany
            · exact h
          have hpag : (classify st.res.objects st.documentsObjects).pages = none :=
            (classify_pages_none_iff _ _).mpr hall
          have hre : reassembleCore (classify st.res.objects st.documentsObjects)
              st.documentsPages st.res = .error (.invalid "Pages root not found.") := by
            unfold reassembleCore
            rw [hpag]
          rw [hre]
      · have hPanyF : st.documentsObjects.any isPagesB = false := by
          rw [List.any_eq_false]
          intro x hx
          rw [hP x hx]
          simp
        rw [if_neg (by simp [hPanyF])]
        have hpag : (classify st.res.objects st.documentsObjects).pages = none :=
          (classify_pages_none_iff _ _).mpr hP
        have hre : reassembleCore (classify st.res.objects st.documentsObjects)
            st.documentsPages st.res = .error (.invalid "Pages root not found.") := by
          unfold reassembleCore
          rw [hpag]
        rw [hre]
    refine ⟨hmain, ?_⟩
    unfold savedPath
    rw [hmain]

/-- C7 witness: two loadable inputs with neither root abort with the Pages
structural error and produce no output. -/
theorem missing_root_aborts_witness :
    mergeMain exArgs exFsNoRoots =
      .error (.invalid
        (if (docsObjectsOf [docNoRoots, docNoRoots]).any isPagesB then
          "Catalog root not found."
         else "Pages root not found.")) ∧
    savedPath exArgs exFsNoRoots = none :=
  missing_root_aborts exArgs exFsNoRoots [docNoRoots, docNoRoots]
    (by decide) (by rfl) (by rfl) (.inr (by decide))

/-! ### Claim C9 -/

/-- C9: the parsed `--output` argument is never used: two runs differing only
in the output value behave identically, and every successful run saves to
`predir.join("merged.pdf")` with `predir` defaulting to ".". -/
theorem output_argument_ignored (args : Args) (fs : String → Option PdfDoc)
    (o : Option String) :
    mergeMain { args with output := o } fs = mergeMain args fs ∧
    ((mergeMain args fs).isOk = true →
      savedPath args fs = some (joinPath (args.predir.getD ".") "merged.pdf")) := by
  constructor
  · cases args
    rfl
  · intro hok
    by_cases h2 : args.files.length < 2
    · unfold mergeMain at hok
      rw [if_pos h2] at hok
      simp [Except.isOk, Except.toBool] at hok
    · cases hl : loadDocs (args.predir.getD ".") args.files fs with
      | error e =>
        unfold mergeMain at hok
        rw [if_neg h2] at hok
        simp only [hl] at hok
        simp [Except.isOk, Except.toBool] at hok
      | ok docs =>
        cases hr : runMerge docs with
        | error e =>
          unfold mergeMain at hok
          rw [if_neg h2] at hok
          simp only [hl, hr] at hok
          simp [Except.isOk, Except.toBool] at hok
        | ok r =>
          obtain ⟨st, infos⟩ := r
          cases hre : reassembleCore (classify st.res.objects st.documentsObjects)
              st.documentsPages st.res with
          | error e =>
            unfold mergeMain at hok
            rw [if_neg h2] at hok
            simp only [hl, hr, hre] at hok
            simp [Except.isOk, Except.toBool] at hok
          | ok out3 =>
            obtain ⟨out, catalogId, pid⟩ := out3
            have hmain : mergeMain args fs =
                .ok (joinPath (args.predir.getD ".") "merged.pdf",
                     finalize out catalogId) := by
              unfold mergeMain
              rw [if_neg h2]
              simp only [hl, hr, hre]
            unfold savedPath
            rw [hmain]

/-- C9 witness: a successful concrete run; changing `--output` changes
nothing, and the file is saved to "./merged.pdf". -/
theorem output_argument_ignored_witness :
    mergeMain { exArgs with output := some "elsewhere.pdf" } exFs = mergeMain exArgs exFs ∧
    savedPath exArgs exFs = some (joinPath (exArgs.predir.getD ".") "merged.pdf") := by
  have h := output_argument_ignored exArgs exFs (some "elsewhere.pdf")
  exact ⟨h.1, h.2 (by rfl)⟩

/-! ### Claim C8 -/

theorem bookmarkUpdate_layer_spec (lp : List (Option Nat)) (last : Nat)
    (res : OutDoc) (layer : Nat) (bm : Bookmark) (b : BookmarkStep)
    (h : bookmarkUpdate lp last res layer bm = .ok b)
    (h1 : 1 ≤ layer) (h2 : last = layer - 1) :
    b.arm = (if layer = 1 then Arm.one else Arm.guarded) ∧ b.lastLayer = layer := by
  unfold bookmarkUpdate at h
  by_cases hl1 : layer = 1
  · subst hl1
    rw [if_neg (by decide), if_pos (by decide)] at h
    cases hg : lp.get? 0 with
    | none =>
      rw [hg] at h
      simp at h
    | some parent =>
      rw [hg] at h
      cases hs : setSlot lp 1 (some (res.addBookmark bm parent).1) with
      | none =>
        simp only [hs] at h
        simp at h
      | some lp' =>
        simp only [hs] at h
        rw [Except.ok.injEq] at h
        rw [← h]
        exact ⟨rfl, rfl⟩
  · have hge2 : 2 ≤ layer := by omega
    have hz : ¬ ((layer == 0) = true) := by simp; omega
    have ho : ¬ ((layer == 1) = true) := by simp [hl1]
    have hguard : (layer ≤ last || (layer - 1 == last)) = true := by
      subst h2
      simp
    rw [if_neg hz, if_neg ho, if_pos hguard] at h
    cases hg : lp.get? (layer - 1) with
    | none =>
      rw [hg] at h
      simp at h
    | some parent =>
      rw [hg] at h
      cases hs : setSlot lp (layer - 1) (some (res.addBookmark bm parent).1) with
      | none =>
        simp only [hs] at h
        simp at h
      | some lp' =>
        simp only [hs] at h
        rw [Except.ok.injEq] at h
        rw [← h]
        exact ⟨by rw [if_neg hl1], rfl⟩

theorem mergeStep_layer_spec (st : MergeState) (layer : Nat) (d : PdfDoc)
    (st2 : MergeState) (info : StepInfo)
    (h : mergeStep st layer d = .ok (st2, info))
    (h1 : 1 ≤ layer) (h2 : st.lastLayer = layer - 1) :
    info.arm = (if layer = 1 then Arm.one else Arm.guarded) ∧
    info.lastLayerAfter = layer ∧ st2.lastLayer = layer := by
  unfold mergeStep at h
  cases hc : collectPages (renumberWith d st.maxId) st.documentsPages st.pagenum with
  | error e =>
    simp only [hc] at h
    simp at h
  | ok scan =>
    simp only [hc] at h
    cases hb : bookmarkUpdate st.layerParent st.lastLayer st.res layer
        ⟨scan.display, (0, 0, 0), 0, scan.firstObject.getD (0, 0)⟩ with
    | error e =>
      rw [hb] at h
      simp at h
    | ok b =>
      simp only [hb] at h
      rw [Except.ok.injEq, Prod.mk.injEq] at h
      obtain ⟨hst, hinfo⟩ := h
      obtain ⟨ha, hl⟩ := bookmarkUpdate_layer_spec st.layerParent st.lastLayer st.res
        layer _ b hb h1 h2
      refine ⟨?_, ?_, ?_⟩
      · rw [← hinfo]
        exact ha
      · rw [← hinfo]
        exact hl
      · rw [← hst]
        exact hl

theorem mergeLoop_layer_spec (ds : List PdfDoc) (st : MergeState) (layer : Nat)
    (st' : MergeState) (infos : List StepInfo)
    (h : mergeLoop st layer ds = .ok (st', infos))
    (h1 : 1 ≤ layer) (h2 : st.lastLayer = layer - 1) :
    infos.map (fun i => i.arm) = armsExpected layer ds.length ∧
    infos.map (fun i => i.lastLayerAfter) = layersExpected layer ds.length ∧
    st'.lastLayer = layer - 1 + ds.length := by
  induction ds generalizing st layer infos with
  | nil =>
    unfold mergeLoop at h
    rw [Except.ok.injEq, Prod.mk.injEq] at h
    obtain ⟨hst, hinfos⟩ := h
    rw [← hst, ← hinfos]
    exact ⟨rfl, rfl, h2.symm ▸ rfl⟩
  | cons d ds ih =>
    unfold mergeLoop at h
    cases hs : mergeStep st layer d with
    | error e =>
      rw [hs] at h
      simp at h
    | ok r =>
      obtain ⟨st1, info⟩ := r
      simp only [hs] at h
      cases hloop : mergeLoop st1 (layer + 1) ds with
      | error e =>
        rw [hloop] at h
        simp at h
      | ok r2 =>
        obtain ⟨st2, infos2⟩ := r2
        simp only [hloop] at h
        rw [Except.ok.injEq, Prod.mk.injEq] at h
        obtain ⟨hst, hinfos⟩ := h
        subst hst
        subst hinfos
        obtain ⟨ha, hl, hsl⟩ := mergeStep_layer_spec st layer d st1 info hs h1 h2
        obtain ⟨iha, ihl, ihs⟩ := ih st1 (layer + 1) infos2 hloop (by omega)
          (by rw [hsl]; omega)
        refine ⟨?_, ?_, ?_⟩
        · rw [List.map_cons, List.length_cons, ha, iha]
          rfl
        · rw [List.map_cons, List.length_cons, hl, ihl]
          rfl
        · rw [ihs, List.length_cons]
          omega

theorem initMerge_ok (n : Nat) (st0 : MergeState) (h : initMerge n = .ok st0) :
    st0.lastLayer = 0 ∧ st0.maxId = 1 ∧ st0.pagenum = 1 ∧
    st0.documentsPages = [] ∧ st0.documentsObjects = [] ∧ 1 ≤ n ∧
    st0.layerParent = (List.replicate n (none : Option Nat)).set 0 (some 1) ∧
    st0.res.nextBookmarkId = 2 := by
  unfold initMerge at h
  cases n with
  | zero => simp [setSlot] at h
  | succ m =>
    have hs : setSlot (List.replicate (m + 1) (none : Option Nat)) 0
        (some (emptyOut.addBookmark ⟨"Table of Contents", (0, 0, 0), 0, (0, 0)⟩ none).1)
        = some ((List.replicate (m + 1) (none : Option Nat)).set 0 (some 1)) := by
      unfold setSlot
      rw [if_pos (by simp)]
      rfl
    simp only [hs] at h
    rw [Except.ok.injEq] at h
    rw [← h]
    exact ⟨rfl, rfl, rfl, rfl, rfl, by omega, rfl, rfl⟩

theorem armsExpected_of_ge_two (layer n : Nat) (h : 2 ≤ layer) :
    armsExpected layer n = List.replicate n Arm.guarded := by
  induction n generalizing layer with
  | zero => rfl
  | succ m ih =>
    unfold armsExpected
    rw [if_neg (by omega), ih (layer + 1) (by omega)]
    rfl

theorem layersExpected_eq_range (layer n : Nat) :
    layersExpected layer n = (List.range n).map (fun j => layer + j) := by
  induction n generalizing layer with
  | zero => rfl
  | succ m ih =>
    unfold layersExpected
    rw [List.range_succ_eq_map, List.map_cons, ih (layer + 1), List.map_map]
    refine congrArg₂ _ (by omega) ?_
    apply List.map_congr_left
    intro j hj
    simp
    omega

/-- C8: with layer = input position (1-indexed), the state invariant
`last_layer = i` holds after processing document i, so in every (successful)
run document 1 takes the literal `1` arm and every later document satisfies
the guard `l <= last_layer || l - 1 == last_layer` and takes the guarded
arm: the layer-0 arm and both fallback arms are never taken, and the final
`last_layer` equals the number of documents. -/
theorem layer_machine_invariant (docs : List PdfDoc)
    (h : (runMerge docs).isOk = true) :
    armsOf docs = Arm.one :: List.replicate (docs.length - 1) Arm.guarded ∧
    lastLayersOf docs = (List.range docs.length).map (fun j => j + 1) ∧
    finalLastLayer docs = some docs.length := by
  cases hrun : runMerge docs with
  | error e =>
    rw [hrun] at h
    simp [Except.isOk, Except.toBool] at h
  | ok r =>
    obtain ⟨st, infos⟩ := r
    have hrun' := hrun
    unfold runMerge at hrun'
    cases hinit : initMerge docs.length with
    | error e =>
      rw [hinit] at hrun'
      simp at hrun'
    | ok st0 =>
      simp only [hinit] at hrun'
      obtain ⟨hll, _, _, _, _, hn, _, _⟩ := initMerge_ok docs.length st0 hinit
      obtain ⟨ha, hl, hs⟩ := mergeLoop_layer_spec docs st0 1 st infos hrun'
        (by omega) (by omega)
      have harms : armsOf docs = infos.map (fun i => i.arm) := by
        unfold armsOf
        rw [hrun]
      have hlast : lastLayersOf docs = infos.map (fun i => i.lastLayerAfter) := by
        unfold lastLayersOf
        rw [hrun]
      have hfin : finalLastLayer docs = some st.lastLayer := by
        unfold finalLastLayer
        rw [hrun]
      refine ⟨?_, ?_, ?_⟩
      · rw [harms, ha]
        obtain ⟨m, hm⟩ : ∃ m, docs.length = m + 1 := ⟨docs.length - 1, by omega⟩
        rw [hm]
        unfold armsExpected
        rw [if_pos rfl, armsExpected_of_ge_two 2 m (by omega)]
        simp
      · rw [hlast, hl, layersExpected_eq_range]
        apply List.map_congr_left
        intro j hj
        omega
      · rw [hfin, hs]
        simp

/-- C8 witness: a concrete two-document run takes exactly the `1` arm then
the guarded arm, with `last_layer` 1 then 2 and final value 2. -/
theorem layer_machine_invariant_witness :
    armsOf [docOnePage, docOnePage] =
      Arm.one :: List.replicate ([docOnePage, docOnePage].length - 1) Arm.guarded ∧
    lastLayersOf [docOnePage, docOnePage] =
      (List.range [docOnePage, docOnePage].length).map (fun j => j + 1) ∧
    finalLastLayer [docOnePage, docOnePage] = some [docOnePage, docOnePage].length :=
  layer_machine_invariant [docOnePage, docOnePage] (by rfl)

/-! ### Claim C1 -/

theorem bookmarkUpdate_full_spec (lp : List (Option Nat)) (last : Nat)
    (res : OutDoc) (layer : Nat) (bm : Bookmark) (b : BookmarkStep)
    (h : bookmarkUpdate lp last res layer bm = .ok b)
    (h1 : 1 ≤ layer) (h2 : last = layer - 1) :
    b.bookmarkId = res.nextBookmarkId ∧
    b.res.nextBookmarkId = res.nextBookmarkId + 1 ∧
    lp.get? (if layer = 1 then 0 else layer - 1) = some b.parent ∧
    b.layerParent = lp.set (if layer = 1 then 1 else layer - 1) (some b.bookmarkId) ∧
    b.lastLayer = layer := by
  unfold bookmarkUpdate at h
  by_cases hl1 : layer = 1
  · subst hl1
    rw [if_neg (by decide), if_pos (by decide)] at h
    cases hg : lp.get? 0 with
    | none =>
      rw [hg] at h
      simp at h
    | some parent =>
      rw [hg] at h
      cases hs : setSlot lp 1 (some (res.addBookmark bm parent).1) with
      | none =>
        simp only [hs] at h
        simp at h
      | some lp' =>
        have hset : lp' = lp.set 1 (some (res.addBookmark bm parent).1) := by
          unfold setSlot at hs
          by_cases hlen : 1 < lp.length
          · rw [if_pos hlen] at hs
            exact (Option.some_inj.mp hs).symm
          · rw [if_neg hlen] at hs
            exact absurd hs (by simp)
        simp only [hs] at h
        rw [Except.ok.injEq] at h
        rw [← h]
        exact ⟨rfl, rfl, by rw [if_pos rfl, hg], by rw [if_pos rfl, hset], rfl⟩
  · have hz : ¬ ((layer == 0) = true) := by simp; omega
    have ho : ¬ ((layer == 1) = true) := by simp [hl1]
    have hguard : (layer ≤ last || (layer - 1 == last)) = true := by
      subst h2
      simp
    rw [if_neg hz, if_neg ho, if_pos hguard] at h
    cases hg : lp.get? (layer - 1) with
    | none =>
      rw [hg] at h
      simp at h
    | some parent =>
      rw [hg] at h
      cases hs : setSlot lp (layer - 1) (some (res.addBookmark bm parent).1) with
      | none =>
        simp only [hs] at h
        simp at h
      | some lp' =>
        have hset : lp' = lp.set (layer - 1) (some (res.addBookmark bm parent).1) := by
          unfold setSlot at hs
          by_cases hlen : layer - 1 < lp.length
          · rw [if_pos hlen] at hs
            exact (Option.some_inj.mp hs).symm
          · rw [if_neg hlen] at hs
            exact absurd hs (by simp)
        simp only [hs] at h
        rw [Except.ok.injEq] at h
        rw [← h]
        exact ⟨rfl, rfl, by rw [if_neg hl1, hg], by rw [if_neg hl1, hset], rfl⟩

theorem mergeStep_full_spec (st : MergeState) (layer : Nat) (d : PdfDoc)
    (st2 : MergeState) (info : StepInfo)
    (h : mergeStep st layer d = .ok (st2, info))
    (h1 : 1 ≤ layer) (h2 : st.lastLayer = layer - 1) :
    info.bookmarkId = st.res.nextBookmarkId ∧
    st2.res.nextBookmarkId = st.res.nextBookmarkId + 1 ∧
    st.layerParent.get? (if layer = 1 then 0 else layer - 1) = some info.parent ∧
    st2.layerParent =
      st.layerParent.set (if layer = 1 then 1 else layer - 1) (some info.bookmarkId) ∧
    st2.lastLayer = layer := by
  unfold mergeStep at h
  cases hc : collectPages (renumberWith d st.maxId) st.documentsPages st.pagenum with
  | error e =>
    simp only [hc] at h
    simp at h
  | ok scan =>
    simp only [hc] at h
    cases hb : bookmarkUpdate st.layerParent st.lastLayer st.res layer
        ⟨scan.display, (0, 0, 0), 0, scan.firstObject.getD (0, 0)⟩ with
    | error e =>
      rw [hb] at h
      simp at h
    | ok b =>
      simp only [hb] at h
      rw [Except.ok.injEq, Prod.mk.injEq] at h
      obtain ⟨hst, hinfo⟩ := h
      obtain ⟨hid, hnx, hpar, hlp, hll⟩ := bookmarkUpdate_full_spec st.layerParent
        st.lastLayer st.res layer _ b hb h1 h2
      refine ⟨?_, ?_, ?_, ?_, ?_⟩
      · rw [← hinfo]
        exact hid
      · rw [← hst]
        exact hnx
      · rw [← hinfo]
        exact hpar
      · rw [← hst, ← hinfo]
        exact hlp
      · rw [← hst]
        exact hll

/-- C1 counterexample: three one-page documents.  Document 1's bookmark is a
child of the Table of Contents root (reference 1) and document 2's a child
of document 1's bookmark (reference 2) — but document 3's step satisfies the
SECOND table row (`l - 1 == last_layer`, since `l = 3` and `last_layer = 2`),
whose parent slot `layer_parent[2]` has never been written, so its bookmark
has NO parent.  The claim's prediction — the third table row's parent
`layer_parent[last_layer - 1]`, which at that point holds document 2's
bookmark (reference 3) — is wrong. -/
theorem nesting_scenario_counterexample :
    parentsOf [docOnePage, docOnePage, docOnePage] = [some 1, some 2, none] ∧
    ¬ parentsOf [docOnePage, docOnePage, docOnePage] = [some 1, some 2, some 3] := by
  decide

/-- C1 (amended): for three input documents with one page each, processed in
input order with layer = position, document 1's bookmark is a child of the
"Table of Contents" root, document 2's bookmark is a child of document 1's
bookmark, and document 3's bookmark receives the parent the SECOND table row
dictates — `layer_parent[l-1] = layer_parent[2]`, a slot never written — so
it has no parent at all (it is attached at the top level). -/
theorem three_docs_parents (d1 d2 d3 : PdfDoc)
    (hp1 : d1.pages.length = 1) (hp2 : d2.pages.length = 1)
    (hp3 : d3.pages.length = 1)
    (h : (runMerge [d1, d2, d3]).isOk = true) :
    parentsOf [d1, d2, d3] = [some 1, some 2, none] := by
  cases hrun : runMerge [d1, d2, d3] with
  | error e =>
    rw [hrun] at h
    simp [Except.isOk, Except.toBool] at h
  | ok r =>
    obtain ⟨st, infos⟩ := r
    have hpar : parentsOf [d1, d2, d3] = infos.map (fun i => i.parent) := by
      unfold parentsOf
      rw [hrun]
    have hrun' := hrun
    unfold runMerge at hrun'
    cases hinit : initMerge ([d1, d2, d3].length) with
    | error e =>
      simp only [hinit] at hrun'
      simp at hrun'
    | ok st0 =>
      simp only [hinit] at hrun'
      obtain ⟨hll0, _, _, _, _, _, hlp0, hnb0⟩ :=
        initMerge_ok ([d1, d2, d3].length) st0 hinit
      have hlp0' : st0.layerParent = [some 1, none, none] := by
        rw [hlp0]
        rfl
      unfold mergeLoop at hrun'
      cases hs1 : mergeStep st0 1 d1 with
      | error e =>
        rw [hs1] at hrun'
        simp at hrun'
      | ok r1 =>
        obtain ⟨st1, info1⟩ := r1
        simp only [hs1] at hrun'
        obtain ⟨h1id, h1nx, h1par, h1lp, h1ll⟩ :=
          mergeStep_full_spec st0 1 d1 st1 info1 hs1 (by omega) (by omega)
        rw [hlp0'] at h1par h1lp
        rw [hnb0] at h1id h1nx
        have h1par' : info1.parent = some 1 := by
          rw [if_pos rfl] at h1par
          exact (Option.some_inj.mp h1par).symm
        have h1lp' : st1.layerParent = [some 1, some info1.bookmarkId, none] := by
          rw [h1lp]
          rfl
        rw [h1id] at h1lp'
        unfold mergeLoop at hrun'
        cases hs2 : mergeStep st1 2 d2 with
        | error e =>
          rw [hs2] at hrun'
          simp at hrun'
        | ok r2 =>
          obtain ⟨st2, info2⟩ := r2
          simp only [hs2] at hrun'
          obtain ⟨h2id, h2nx, h2par, h2lp, h2ll⟩ :=
            mergeStep_full_spec st1 2 d2 st2 info2 hs2 (by omega) (by omega)
          rw [h1lp'] at h2par h2lp
          rw [h1nx] at h2id h2nx
          have h2par' : info2.parent = some 2 := by
            rw [if_neg (by decide)] at h2par
            exact (Option.some_inj.mp h2par).symm
          have h2lp' : st2.layerParent = [some 1, some info2.bookmarkId, none] := by
            rw [h2lp]
            rfl
          unfold mergeLoop at hrun'
          cases hs3 : mergeStep st2 3 d3 with
          | error e =>
            rw [hs3] at hrun'
            simp at hrun'
          | ok r3 =>
            obtain ⟨st3, info3⟩ := r3
            simp only [hs3] at hrun'
            obtain ⟨h3id, h3nx, h3par, h3lp, h3ll⟩ :=
              mergeStep_full_spec st2 3 d3 st3 info3 hs3 (by omega) (by omega)
            rw [h2lp'] at h3par
            have h3par' : info3.parent = none := by
              rw [if_neg (by decide)] at h3par
              exact (Option.some_inj.mp h3par).symm
            unfold mergeLoop at hrun'
            rw [Except.ok.injEq, Prod.mk.injEq] at hrun'
            obtain ⟨hst, hinfos⟩ := hrun'
            rw [hpar, ← hinfos, List.map_cons, List.map_cons, List.map_cons,
              List.map_nil, h1par', h2par', h3par']

/-- C1 witness for the amended claim: three concrete one-page documents. -/
theorem three_docs_parents_witness :
    parentsOf [docOnePage, docOnePage, docOnePage] = [some 1, some 2, none] :=
  three_docs_parents docOnePage docOnePage docOnePage rfl rfl rfl (by rfl)

/-! ### Claim C5 -/

theorem idLt_iff (a b : ObjectId) : idLt a b = true ↔ IdLt a b := by
  unfold idLt IdLt
  simp [Bool.or_eq_true, Bool.and_eq_true, decide_eq_true_eq, beq_iff_eq]

theorem IdLt_trans (a b c : ObjectId) (h1 : IdLt a b) (h2 : IdLt b c) : IdLt a c := by
  unfold IdLt at h1 h2 ⊢
  omega

theorem IdLt_of_not_lt (a b : ObjectId) (hne : a ≠ b) (h : ¬ IdLt a b) : IdLt b a := by
  have h2 : ¬ (a.1 = b.1 ∧ a.2 = b.2) := fun hh => hne (Prod.ext hh.1 hh.2)
  unfold IdLt at h ⊢
  omega

theorem pairwise_keys_btInsert (m : List (ObjectId × Obj)) (k : ObjectId) (v : Obj)
    (h : (m.map Prod.fst).Pairwise IdLt) :
    ((btInsert m k v).map Prod.fst).Pairwise IdLt := by
  induction m with
  | nil => simp [btInsert]
  | cons p rest ih =>
    obtain ⟨k', v'⟩ := p
    rw [List.map_cons, List.pairwise_cons] at h
    obtain ⟨hhead, htail⟩ := h
    by_cases hlt : idLt k k' = true
    · simp only [btInsert, hlt, if_true, List.map_cons]
      rw [List.pairwise_cons]
      constructor
      · intro x hx
        rw [List.mem_cons] at hx
        rcases hx with hx | hx
        · rw [hx]
          exact (idLt_iff k k').mp hlt
        · exact IdLt_trans k k' x ((idLt_iff k k').mp hlt) (hhead x hx)
      · rw [List.pairwise_cons]
        exact ⟨hhead, htail⟩
    · by_cases heq : k = k'
      · subst heq
        simp only [btInsert, hlt, if_false, Bool.false_eq_true, beq_self_eq_true,
          if_true, List.map_cons]
        rw [List.pairwise_cons]
        exact ⟨hhead, htail⟩
      · have hbeq : (k == k') = false := by simp [heq]
        simp only [btInsert, hlt, if_false, Bool.false_eq_true, hbeq, List.map_cons]
        rw [List.pairwise_cons]
        constructor
        · intro x hx
          rcases (map_fst_btInsert rest k v x).mp hx with hx | hx
          · rw [hx]
            exact IdLt_of_not_lt k k' heq (fun hh => hlt ((idLt_iff k k').mpr hh))
          · exact hhead x hx
        · exact ih htail

theorem collectPagesAux_dp (doc : PdfDoc) (l : List ObjectId) (s s' : PageScan)
    (h : collectPagesAux doc l s = .ok s') :
    (∀ a, a ∈ s'.dp.map Prod.fst ↔ a ∈ s.dp.map Prod.fst ∨ a ∈ l) ∧
    ((s.dp.map Prod.fst).Pairwise IdLt → (s'.dp.map Prod.fst).Pairwise IdLt) := by
  induction l generalizing s with
  | nil =>
    unfold collectPagesAux at h
    rw [Except.ok.injEq] at h
    rw [← h]
    exact ⟨fun a => by simp, fun hh => hh⟩
  | cons pid rest ih =>
    unfold collectPagesAux at h
    by_cases hf : s.firstObject.isNone = true
    · simp only [hf, if_true] at h
      cases hbg : btGet doc.objects pid with
      | none =>
        rw [hbg] at h
        simp at h
      | some o =>
        rw [hbg] at h
        obtain ⟨ihm, ihp⟩ := ih _ h
        constructor
        · intro a
          rw [ihm a]
          show a ∈ (btInsert s.dp pid o).map Prod.fst ∨ a ∈ rest ↔ _
          rw [map_fst_btInsert, List.mem_cons]
          tauto
        · intro hp
          apply ihp
          exact pairwise_keys_btInsert s.dp pid o hp
    · simp only [hf, Bool.false_eq_true, if_false] at h
      cases hbg : btGet doc.objects pid with
      | none =>
        rw [hbg] at h
        simp at h
      | some o =>
        rw [hbg] at h
        obtain ⟨ihm, ihp⟩ := ih _ h
        constructor
        · intro a
          rw [ihm a]
          show a ∈ (btInsert s.dp pid o).map Prod.fst ∨ a ∈ rest ↔ _
          rw [map_fst_btInsert, List.mem_cons]
          tauto
        · intro hp
          apply ihp
          exact pairwise_keys_btInsert s.dp pid o hp

theorem filterMap_reference (dp : List (ObjectId × Obj)) :
    ((dp.map (fun p => Obj.reference p.1)).filterMap (fun o =>
      match o with
      | .reference r => some r
      | _ => none)) = dp.map Prod.fst := by
  induction dp with
  | nil => rfl
  | cons p rest ih =>
    rw [List.map_cons, List.filterMap_cons, List.map_cons]
    simp only []
    rw [ih]

theorem foldl_classify_pages_isDict (es : List (ObjectId × Obj)) (c : Classified)
    (hc : ∀ y, c.pages = some y → ∃ d, y.2 = Obj.dictionary d) :
    ∀ y, (es.foldl classifyStep c).pages = some y → ∃ d, y.2 = Obj.dictionary d := by
  induction es using List.reverseRecOn with
  | nil => exact hc
  | append_singleton l e ih =>
    rw [List.foldl_append, List.foldl_cons, List.foldl_nil]
    by_cases he : typeNameD e.2 = "Pages"
    · obtain ⟨d, hed⟩ := typeNameD_dict e.2 (by rw [he]; decide)
      have hd : e.2.asDict = some d := by rw [hed]; rfl
      intro y hy
      rw [classifyStep_pages_eq _ _ d he hd] at hy
      exact ⟨_, by rw [← Option.some_inj.mp hy]⟩
    · intro y hy
      rw [classifyStep_pages_of_ne _ _ he] at hy
      exact ih y hy

theorem renumberWith_objects (d : PdfDoc) (k : Nat) :
    (renumberWith d k).objects =
      d.objects.map (fun p =>
        (substId (renumMap d.objects k) p.1, substObj (renumMap d.objects k) p.2)) := rfl

theorem renumberWith_pages (d : PdfDoc) (k : Nat) :
    (renumberWith d k).pages = d.pages.map (substId (renumMap d.objects k)) := rfl

theorem renumberWith_maxId (d : PdfDoc) (k : Nat) :
    (renumberWith d k).maxId = k + d.objects.length - 1 := rfl

theorem substId_renumMap_mem (objects : List (ObjectId × Obj)) (k : Nat)
    (id : ObjectId) (h : id ∈ objects.map Prod.fst) :
    ∃ j, j < objects.length ∧ substId (renumMap objects k) id = (k + j, id.2) := by
  induction objects generalizing k with
  | nil => simp at h
  | cons p rest ih =>
    rw [List.map_cons, List.mem_cons] at h
    unfold renumMap substId
    by_cases hp : (p.1 == id) = true
    · rw [List.find?_cons_of_pos _ (by simpa using hp)]
      have : p.1 = id := by simpa using hp
      refine ⟨0, by simp, ?_⟩
      rw [← this]
      rfl
    · rw [List.find?_cons_of_neg _ (by simpa using hp)]
      have hid : id ∈ rest.map Prod.fst := by
        rcases h with h | h
        · exact absurd (by rw [h] : p.1 = id) (by simpa using hp)
        · exact h
      obtain ⟨j, hj, hsub⟩ := ih (k + 1) hid
      unfold substId at hsub
      refine ⟨j + 1, by simpa using hj, ?_⟩
      rw [hsub]
      refine congrArg₂ Prod.mk (by omega) rfl

theorem mergeStep_dp_spec (st : MergeState) (layer : Nat) (d : PdfDoc)
    (st2 : MergeState) (info : StepInfo)
    (h : mergeStep st layer d = .ok (st2, info))
    (hres : ∀ p ∈ d.pages, p ∈ d.objects.map Prod.fst)
    (hmax : 1 ≤ st.maxId) :
    (∀ a, a ∈ st2.documentsPages.map Prod.fst ↔
      a ∈ st.documentsPages.map Prod.fst ∨ a ∈ info.pagesOrder) ∧
    ((st.documentsPages.map Prod.fst).Pairwise IdLt →
      (st2.documentsPages.map Prod.fst).Pairwise IdLt) ∧
    (∀ q ∈ info.pagesOrder, st.maxId ≤ q.1 ∧ q.1 < st2.maxId) ∧
    st.maxId ≤ st2.maxId ∧ 1 ≤ st2.maxId := by
  unfold mergeStep at h
  cases hc : collectPages (renumberWith d st.maxId) st.documentsPages st.pagenum with
  | error e =>
    simp only [hc] at h
    simp at h
  | ok scan =>
    simp only [hc] at h
    cases hb : bookmarkUpdate st.layerParent st.lastLayer st.res layer
        ⟨scan.display, (0, 0, 0), 0, scan.firstObject.getD (0, 0)⟩ with
    | error e =>
      rw [hb] at h
      simp at h
    | ok b =>
      simp only [hb] at h
      rw [Except.ok.injEq, Prod.mk.injEq] at h
      obtain ⟨hst, hinfo⟩ := h
      have hdp2 : st2.documentsPages = scan.dp := by rw [← hst]
      have hord : info.pagesOrder = (renumberWith d st.maxId).pages := by rw [← hinfo]
      have hm2 : st2.maxId = (renumberWith d st.maxId).maxId + 1 := by rw [← hst]
      have hm2' : st2.maxId = st.maxId + d.objects.length - 1 + 1 := by
        rw [hm2, renumberWith_maxId]
      unfold collectPages at hc
      obtain ⟨hmem, hpair⟩ := collectPagesAux_dp (renumberWith d st.maxId)
        (renumberWith d st.maxId).pages
        { dp := st.documentsPages, firstObject := none, display := "",
          pagenum := st.pagenum } scan hc
      have hbq : ∀ q ∈ info.pagesOrder, st.maxId ≤ q.1 ∧ q.1 < st2.maxId := by
        intro q hq
        rw [hord, renumberWith_pages] at hq
        obtain ⟨p, hp, hpe⟩ := List.mem_map.mp hq
        obtain ⟨j, hj, hsub⟩ := substId_renumMap_mem d.objects st.maxId p (hres p hp)
        rw [hsub] at hpe
        rw [← hpe]
        constructor
        · simp
        · show st.maxId + j < st2.maxId
          rw [hm2']
          omega
      refine ⟨?_, ?_, hbq, by omega, by omega⟩
      · intro a
        rw [hdp2, hord, hmem a]
      · intro hp
        rw [hdp2]
        exact hpair hp

theorem mergeLoop_dp_spec (ds : List PdfDoc) (st : MergeState) (layer : Nat)
    (st' : MergeState) (infos : List StepInfo)
    (h : mergeLoop st layer ds = .ok (st', infos))
    (hres : ∀ doc ∈ ds, ∀ p ∈ doc.pages, p ∈ doc.objects.map Prod.fst)
    (hmax : 1 ≤ st.maxId)
    (hbound : ∀ a ∈ st.documentsPages.map Prod.fst, a.1 < st.maxId) :
    (∀ a, a ∈ st'.documentsPages.map Prod.fst ↔
      a ∈ st.documentsPages.map Prod.fst ∨
        a ∈ (infos.map (fun i => i.pagesOrder)).flatten) ∧
    ((st.documentsPages.map Prod.fst).Pairwise IdLt →
      (st'.documentsPages.map Prod.fst).Pairwise IdLt) ∧
    (∀ l ∈ infos.map (fun i => i.pagesOrder), ∀ q ∈ l, st.maxId ≤ q.1) ∧
    (∀ a ∈ st'.documentsPages.map Prod.fst, a.1 < st'.maxId) ∧
    st.maxId ≤ st'.maxId ∧
    List.Pairwise (fun l1 l2 => ∀ p ∈ l1, ∀ q ∈ l2, p.1 < q.1)
      (infos.map (fun i => i.pagesOrder)) := by
  induction ds generalizing st layer infos with
  | nil =>
    unfold mergeLoop at h
    rw [Except.ok.injEq, Prod.mk.injEq] at h
    obtain ⟨hst, hinfos⟩ := h
    subst hst
    rw [← hinfos]
    refine ⟨fun a => by simp, fun hh => hh, by simp, hbound, le_refl _, by simp⟩
  | cons d ds ih =>
    unfold mergeLoop at h
    cases hs : mergeStep st layer d with
    | error e =>
      rw [hs] at h
      simp at h
    | ok r =>
      obtain ⟨st1, info⟩ := r
      simp only [hs] at h
      cases hloop : mergeLoop st1 (layer + 1) ds with
      | error e =>
        rw [hloop] at h
        simp at h
      | ok r2 =>
        obtain ⟨st2, infos2⟩ := r2
        simp only [hloop] at h
        rw [Except.ok.injEq, Prod.mk.injEq] at h
        obtain ⟨hst, hinfos⟩ := h
        subst hst
        subst hinfos
        obtain ⟨smem, spair, sbound, smax, smax1⟩ := mergeStep_dp_spec st layer d st1
          info hs (hres d (List.mem_cons_self _ _)) hmax
        have hbound1 : ∀ a ∈ st1.documentsPages.map Prod.fst, a.1 < st1.maxId := by
          intro a ha
          rcases (smem a).mp ha with ha | ha
          · exact Nat.lt_of_lt_of_le (hbound a ha) smax
          · exact (sbound a ha).2
        obtain ⟨imem, ipair, ibnd, ifinal, imax, ipw⟩ := ih st1 (layer + 1) infos2
          hloop (fun doc hd => hres doc (List.mem_cons_of_mem _ hd)) smax1 hbound1
        refine ⟨?_, ?_, ?_, ifinal, Nat.le_trans smax imax, ?_⟩
        · intro a
          rw [imem a, List.map_cons, List.flatten_cons, List.mem_append]
          rw [smem a]
          tauto
        · intro hp
          exact ipair (spair hp)
        · intro l hl
          rw [List.map_cons, List.mem_cons] at hl
          rcases hl with hl | hl
          · intro q hq
            rw [hl] at hq
            exact (sbound q hq).1
          · intro q hq
            exact Nat.le_trans smax (ibnd l hl q hq)
        · rw [List.map_cons, List.pairwise_cons]
          constructor
          · intro l2 hl2 p hp q hq
            have hp2 : p.1 < st1.maxId := (sbound p hp).2
            have hq2 : st1.maxId ≤ q.1 := ibnd l2 hl2 q hq
            omega
          · exact ipw

theorem btGet_insert_insert_self (m : List (ObjectId × Obj)) (k1 k2 : ObjectId)
    (v w : Obj) (h : k2 ≠ k1) :
    btGet (btInsert (btInsert m k1 v) k2 w) k1 = some v := by
  rw [btGet_insert_ne _ _ _ _ (Ne.symm h)]
  exact btGet_insert_self _ _ _

/-- C5 counterexample: with a one-page document followed by a document whose
page-tree enumeration order runs contrary to identifier order, the final
`Kids` list is the `BTreeMap` (ascending-identifier) order, not the
per-document enumeration order the claim dictates. -/
theorem kids_order_counterexample :
    kidsOfRun [docOnePage, docReversedPages] = some [(3, 0), (5, 0), (6, 0)] ∧
    claimedKidsOrder [docOnePage, docReversedPages] = [(3, 0), (6, 0), (5, 0)] ∧
    kidsOfRun [docOnePage, docReversedPages] ≠
      some (claimedKidsOrder [docOnePage, docReversedPages]) := by
  refine ⟨by decide, by decide, by decide⟩

/-- C5 (amended): the final `Kids` list equals the `documents_pages`
`BTreeMap` key sequence, which is strictly ascending in identifier order;
its members are exactly the renumbered page identifiers of all documents,
and the per-document blocks occur in input order because every identifier
of a later document strictly exceeds every identifier of an earlier one --
but within one document the order is ascending renumbered identifiers,
which agrees with the document's page enumeration order only when that
enumeration is itself ascending. -/
theorem kids_order (docs : List PdfDoc)
    (hres : ∀ doc ∈ docs, ∀ p ∈ doc.pages, p ∈ doc.objects.map Prod.fst)
    (hids : (canonicalIds docs).all (fun x => x.1 != x.2) = true) :
    (∀ L, kidsOfRun docs = some L → L = collectedPageIds docs) ∧
    (collectedPageIds docs).Pairwise IdLt ∧
    (∀ a, a ∈ collectedPageIds docs ↔ a ∈ (pagesOrdersOf docs).flatten) ∧
    List.Pairwise (fun l1 l2 => ∀ p ∈ l1, ∀ q ∈ l2, p.1 < q.1)
      (pagesOrdersOf docs) := by
  cases hrm : runMerge docs with
  | error e =>
    have hcoll : collectedPageIds docs = [] := by
      unfold collectedPageIds
      rw [hrm]
    have hpo : pagesOrdersOf docs = [] := by
      unfold pagesOrdersOf
      rw [hrm]
    have hk : kidsOfRun docs = none := by
      unfold kidsOfRun
      rw [hrm]
    refine ⟨?_, ?_, ?_, ?_⟩
    · intro L hL
      rw [hk] at hL
      exact absurd hL (by simp)
    · rw [hcoll]
      exact List.Pairwise.nil
    · intro a
      rw [hcoll, hpo]
      simp
    · rw [hpo]
      exact List.Pairwise.nil
  | ok r =>
    obtain ⟨st, infos⟩ := r
    have hcoll : collectedPageIds docs = st.documentsPages.map Prod.fst := by
      unfold collectedPageIds
      rw [hrm]
    have hpo : pagesOrdersOf docs = infos.map (fun i => i.pagesOrder) := by
      unfold pagesOrdersOf
      rw [hrm]
    have hrm2 := hrm
    unfold runMerge at hrm2
    cases hinit : initMerge docs.length with
    | error e =>
      rw [hinit] at hrm2
      simp at hrm2
    | ok st0 =>
      simp only [hinit] at hrm2
      obtain ⟨_, hmax1, _, hdp0, _, _, _, _⟩ := initMerge_ok docs.length st0 hinit
      obtain ⟨imem, ipair, _, _, _, ipw⟩ :=
        mergeLoop_dp_spec docs st0 1 st infos hrm2 hres (le_of_eq hmax1.symm)
          (by rw [hdp0]; simp)
      refine ⟨?_, ?_, ?_, ?_⟩
      · intro L hL
        unfold kidsOfRun at hL
        simp only [hrm] at hL
        cases hcl : (classify st.res.objects st.documentsObjects).pages with
        | none =>
          simp only [hcl] at hL
          exact absurd hL (by simp)
        | some pr =>
          obtain ⟨pageId, pObj⟩ := pr
          simp only [hcl] at hL
          have hcl2 : (st.documentsObjects.foldl classifyStep
              { catalog := none, pages := none,
                resObjects := st.res.objects }).pages = some (pageId, pObj) := hcl
          obtain ⟨pd, hpd⟩ := foldl_classify_pages_isDict st.documentsObjects
            { catalog := none, pages := none, resObjects := st.res.objects }
            (by intro y hy; exact absurd hy (by simp)) (pageId, pObj) hcl2
          have hpd2 : pObj = Obj.dictionary pd := hpd
          subst hpd2
          cases hcat : (classify st.res.objects st.documentsObjects).catalog with
          | none =>
            have hre : reassembleCore (classify st.res.objects st.documentsObjects)
                st.documentsPages st.res =
                  .error (.invalid "Catalog root not found.") := by
              unfold reassembleCore
              simp only [hcl, hcat]
            simp only [hre] at hL
            exact absurd hL (by simp)
          | some cr =>
            obtain ⟨catalogId, catObj⟩ := cr
            have hcan : canonicalIds docs = some (catalogId, pageId) := by
              unfold canonicalIds
              simp only [hrm]
              rw [hcat, hcl]
            have hne : catalogId ≠ pageId := by
              rw [hcan] at hids
              simpa using hids
            cases hre : reassembleCore (classify st.res.objects st.documentsObjects)
                st.documentsPages st.res with
            | error e2 =>
              simp only [hre] at hL
              exact absurd hL (by simp)
            | ok triple =>
              obtain ⟨out, cid, pid⟩ := triple
              simp only [hre] at hL
              unfold reassembleCore at hre
              simp only [hcl, hcat, Obj.asDict] at hre
              rw [Except.ok.injEq, Prod.mk.injEq] at hre
              obtain ⟨hout, _⟩ := hre
              have hget : btGet out.objects pageId =
                  some (Obj.dictionary (pagesRebuilt pd st.documentsPages)) := by
                rw [← hout]
                cases catObj <;>
                  first
                  | exact btGet_insert_insert_self _ _ _ _ _ hne
                  | exact btGet_insert_self _ _ _
              simp only [hget] at hL
              have hkids : dictGet (pagesRebuilt pd st.documentsPages) "Kids" =
                  some (.array (st.documentsPages.map
                    (fun p => Obj.reference p.1))) := by
                unfold pagesRebuilt
                exact dictGet_set_self _ _ _
              simp only [hkids] at hL
              rw [Option.some_inj] at hL
              rw [← hL, filterMap_reference, hcoll]
      · rw [hcoll]
        exact ipair (by rw [hdp0]; exact List.Pairwise.nil)
      · intro a
        rw [hcoll, hpo]
        constructor
        · intro h
          rcases (imem a).mp h with h0 | h1
          · rw [hdp0] at h0
            simp at h0
          · exact h1
        · intro h
          exact (imem a).mpr (Or.inr h)
      · rw [hpo]
        exact ipw

/-- C5 witness: the amended order statement applied to the counterexample
pair of documents, at the page identifier (3, 0). -/
theorem kids_order_witness :
    [(3, 0), (5, 0), (6, 0)] = collectedPageIds [docOnePage, docReversedPages] ∧
    (((3, 0) : ObjectId) ∈ collectedPageIds [docOnePage, docReversedPages] ↔
      ((3, 0) : ObjectId) ∈ (pagesOrdersOf [docOnePage, docReversedPages]).flatten) :=
  ⟨(kids_order [docOnePage, docReversedPages] (by decide) (by decide)).1
      [(3, 0), (5, 0), (6, 0)] (by decide),
   (kids_order [docOnePage, docReversedPages] (by decide) (by decide)).2.2.1 (3, 0)⟩

/-! ### Claim C6 -/

theorem renumberWith_keys_ge (d : PdfDoc) (k : Nat) :
    (((renumberWith d k).objects.map Prod.fst).all (fun i => k ≤ i.1)) = true := by
  rw [List.all_eq_true]
  intro i hi
  rw [renumberWith_objects, List.map_map] at hi
  obtain ⟨p, hp, hpe⟩ := List.mem_map.mp hi
  have hmem : p.1 ∈ d.objects.map Prod.fst := List.mem_map_of_mem _ hp
  obtain ⟨j, hj, hsub⟩ := substId_renumMap_mem d.objects k p.1 hmem
  have : i = (k + j, p.1.2) := by
    rw [← hpe]
    show substId (renumMap d.objects k) p.1 = _
    exact hsub
  rw [this]
  simp

theorem renumberWith_no_dangling (d : PdfDoc) (k : Nat) (id : ObjectId)
    (h : (btGet d.objects id).isSome = true) :
    (btGet (renumberWith d k).objects
      (substId (renumMap d.objects k) id)).isSome = true := by
  rw [btGet_isSome_iff] at h ⊢
  rw [renumberWith_objects, List.map_map]
  obtain ⟨p, hp, hpe⟩ := List.mem_map.mp h
  refine List.mem_map.mpr ⟨p, hp, ?_⟩
  show substId (renumMap d.objects k) p.1 = substId (renumMap d.objects k) id
  rw [hpe]

theorem mergeStep_offset (st : MergeState) (layer : Nat) (d : PdfDoc)
    (st2 : MergeState) (info : StepInfo)
    (h : mergeStep st layer d = .ok (st2, info)) :
    info.offset = st.maxId ∧ st2.maxId = info.maxUsed + 1 := by
  unfold mergeStep at h
  cases hc : collectPages (renumberWith d st.maxId) st.documentsPages st.pagenum with
  | error e =>
    simp only [hc] at h
    simp at h
  | ok scan =>
    simp only [hc] at h
    cases hb : bookmarkUpdate st.layerParent st.lastLayer st.res layer
        ⟨scan.display, (0, 0, 0), 0, scan.firstObject.getD (0, 0)⟩ with
    | error e =>
      rw [hb] at h
      simp at h
    | ok b =>
      simp only [hb] at h
      rw [Except.ok.injEq, Prod.mk.injEq] at h
      obtain ⟨hst, hinfo⟩ := h
      exact ⟨by rw [← hinfo], by rw [← hst, ← hinfo]⟩

theorem mergeLoop_offsets (ds : List PdfDoc) (st : MergeState) (layer : Nat)
    (st' : MergeState) (infos : List StepInfo)
    (h : mergeLoop st layer ds = .ok (st', infos)) :
    List.Chain' (fun a b => b.1 = a.2 + 1)
      (infos.map (fun i => (i.offset, i.maxUsed))) ∧
    ∀ x ∈ (infos.map (fun i => (i.offset, i.maxUsed))).head?, x.1 = st.maxId := by
  induction ds generalizing st layer infos with
  | nil =>
    unfold mergeLoop at h
    rw [Except.ok.injEq, Prod.mk.injEq] at h
    obtain ⟨_, hinfos⟩ := h
    rw [← hinfos]
    exact ⟨List.chain'_nil, by intro x hx; exact absurd hx (by simp)⟩
  | cons d ds ih =>
    unfold mergeLoop at h
    cases hs : mergeStep st layer d with
    | error e =>
      rw [hs] at h
      simp at h
    | ok r =>
      obtain ⟨st1, info⟩ := r
      simp only [hs] at h
      cases hloop : mergeLoop st1 (layer + 1) ds with
      | error e =>
        rw [hloop] at h
        simp at h
      | ok r2 =>
        obtain ⟨st2, infos2⟩ := r2
        simp only [hloop] at h
        rw [Except.ok.injEq, Prod.mk.injEq] at h
        obtain ⟨hst, hinfos⟩ := h
        subst hst
        subst hinfos
        obtain ⟨hoff, hnext⟩ := mergeStep_offset st layer d st1 info hs
        obtain ⟨ihc, ihh⟩ := ih st1 (layer + 1) infos2 hloop
        rw [List.map_cons]
        constructor
        · rw [List.chain'_cons']
          refine ⟨?_, ihc⟩
          intro y hy
          have := ihh y hy
          rw [this, hnext]
        · intro x hx
          rw [List.head?_cons, Option.mem_def, Option.some_inj] at hx
          rw [← hx]
          exact hoff

/-- C6 counterexample: in a concrete two-document run, document 1 is
renumbered with offset 1 and its new maximum identifier is 3, but the value
passed as the offset for document 2 is 4 = 3 + 1, not the maximum 3. -/
theorem renumbering_offset_counterexample :
    offsetsOf [docOnePage, docReversedPages] = [(1, 3), (4, 6)] ∧
    ¬ ((offsetsOf [docOnePage, docReversedPages]).get? 1).map Prod.fst =
      ((offsetsOf [docOnePage, docReversedPages]).get? 0).map Prod.snd := by
  decide

/-- C6 (amended): renumbering a document at offset k (spec-modelled
`renumber_objects_with`) makes every object key's number ≥ k, maps every
resolvable identifier to an identifier that still resolves (no reference
left dangling), and uses a new maximum identifier of k + n - 1 for n
objects; the offset passed for the NEXT document is that maximum plus one,
as witnessed by the offset/maximum chain of every run. -/
theorem renumbering_contract (d : PdfDoc) (k : Nat) (hk : 1 ≤ k)
    (docs : List PdfDoc) :
    (((renumberWith d k).objects.map Prod.fst).all (fun i => k ≤ i.1)) = true ∧
    (∀ id, (btGet d.objects id).isSome = true →
      (btGet (renumberWith d k).objects
        (substId (renumMap d.objects k) id)).isSome = true) ∧
    (renumberWith d k).maxId + 1 = k + d.objects.length ∧
    List.Chain' (fun a b => b.1 = a.2 + 1) (offsetsOf docs) := by
  refine ⟨renumberWith_keys_ge d k, renumberWith_no_dangling d k, ?_, ?_⟩
  · rw [renumberWith_maxId]
    omega
  · unfold offsetsOf
    cases hrun : runMerge docs with
    | error e => exact List.chain'_nil
    | ok r =>
      obtain ⟨st, infos⟩ := r
      unfold runMerge at hrun
      cases hinit : initMerge docs.length with
      | error e =>
        simp only [hinit] at hrun
        simp at hrun
      | ok st0 =>
        simp only [hinit] at hrun
        exact (mergeLoop_offsets docs st0 1 st infos hrun).1

/-- C6 witness: the contract at a concrete document and offset, and the
offset chain of a concrete run. -/
theorem renumbering_contract_witness :
    (((renumberWith docReversedPages 4).objects.map Prod.fst).all
      (fun i => 4 ≤ i.1)) = true ∧
    (btGet (renumberWith docReversedPages 4).objects
      (substId (renumMap docReversedPages.objects 4) (2, 0))).isSome = true ∧
    (renumberWith docReversedPages 4).maxId + 1 = 4 + docReversedPages.objects.length ∧
    List.Chain' (fun a b => b.1 = a.2 + 1)
      (offsetsOf [docOnePage, docReversedPages]) := by
  have h := renumbering_contract docReversedPages 4 (by decide)
    [docOnePage, docReversedPages]
  exact ⟨h.1, h.2.1 (2, 0) (by rfl), h.2.2.1, h.2.2.2⟩

/-! ### Claim C10 -/

theorem collectPagesAux_fixed (doc : PdfDoc) (l : List ObjectId) (s s' : PageScan)
    (hf : s.firstObject.isSome = true)
    (h : collectPagesAux doc l s = .ok s') :
    s'.display = s.display ∧ s'.firstObject = s.firstObject ∧ s'.pagenum = s.pagenum := by
  induction l generalizing s with
  | nil =>
    unfold collectPagesAux at h
    rw [Except.ok.injEq] at h
    rw [← h]
    exact ⟨rfl, rfl, rfl⟩
  | cons pid rest ih =>
    unfold collectPagesAux at h
    obtain ⟨v, hv⟩ := Option.isSome_iff_exists.mp hf
    rw [hv] at h
    simp only [Option.isNone_some, Bool.false_eq_true, if_false] at h
    cases hbg : btGet doc.objects pid with
    | none =>
      rw [hbg] at h
      simp at h
    | some o =>
      rw [hbg] at h
      have hres := ih { s with dp := btInsert s.dp pid o } (by rw [show ({ s with dp := btInsert s.dp pid o } : PageScan).firstObject = s.firstObject from rfl, hv]; rfl) h
      exact hres

theorem collectPages_spec (doc : PdfDoc) (dp0 : List (ObjectId × Obj)) (n : Nat)
    (scan : PageScan) (h : collectPages doc dp0 n = .ok scan) :
    (doc.pages = [] → scan.display = "" ∧ scan.firstObject = none ∧ scan.pagenum = n) ∧
    (doc.pages ≠ [] → scan.display = "Page " ++ toString n ∧ scan.pagenum = n + 1) := by
  unfold collectPages at h
  cases hp : doc.pages with
  | nil =>
    rw [hp] at h
    unfold collectPagesAux at h
    rw [Except.ok.injEq] at h
    refine ⟨fun _ => ?_, fun hne => absurd rfl hne⟩
    rw [← h]
    exact ⟨rfl, rfl, rfl⟩
  | cons p rest =>
    rw [hp] at h
    unfold collectPagesAux at h
    simp only [Option.isNone_none, if_true] at h
    cases hbg : btGet doc.objects p with
    | none =>
      rw [hbg] at h
      simp at h
    | some o =>
      rw [hbg] at h
      obtain ⟨hd, hf, hn⟩ := collectPagesAux_fixed doc rest _ scan (by rfl) h
      refine ⟨fun heq => absurd heq (by simp), fun _ => ?_⟩
      rw [hd, hn]
      exact ⟨rfl, rfl⟩

theorem mergeStep_title_spec (st : MergeState) (layer : Nat) (d : PdfDoc)
    (st2 : MergeState) (info : StepInfo)
    (h : mergeStep st layer d = .ok (st2, info)) :
    (d.pages = [] →
      info.title = "" ∧ info.target = (0, 0) ∧ st2.pagenum = st.pagenum) ∧
    (d.pages ≠ [] →
      info.title = "Page " ++ toString st.pagenum ∧ st2.pagenum = st.pagenum + 1) := by
  unfold mergeStep at h
  cases hc : collectPages (renumberWith d st.maxId) st.documentsPages st.pagenum with
  | error e =>
    simp only [hc] at h
    simp at h
  | ok scan =>
    simp only [hc] at h
    cases hb : bookmarkUpdate st.layerParent st.lastLayer st.res layer
        ⟨scan.display, (0, 0, 0), 0, scan.firstObject.getD (0, 0)⟩ with
    | error e =>
      rw [hb] at h
      simp at h
    | ok b =>
      simp only [hb] at h
      rw [Except.ok.injEq, Prod.mk.injEq] at h
      obtain ⟨hst, hinfo⟩ := h
      obtain ⟨hemp, hne⟩ := collectPages_spec (renumberWith d st.maxId)
        st.documentsPages st.pagenum scan hc
      constructor
      · intro hdp
        have hrp : (renumberWith d st.maxId).pages = [] := by
          unfold renumberWith
          rw [hdp]
          rfl
        obtain ⟨h1, h2, h3⟩ := hemp hrp
        refine ⟨?_, ?_, ?_⟩
        · rw [← hinfo]
          exact h1
        · rw [← hinfo]
          show scan.firstObject.getD (0, 0) = (0, 0)
          rw [h2]
          rfl
        · rw [← hst]
          exact h3
      · intro hdp
        have hrp : (renumberWith d st.maxId).pages ≠ [] := by
          unfold renumberWith
          simp [hdp]
        obtain ⟨h1, h2⟩ := hne hrp
        refine ⟨?_, ?_⟩
        · rw [← hinfo]
          exact h1
        · rw [← hst]
          exact h2

theorem mergeLoop_title_spec (ds : List PdfDoc) (st : MergeState) (layer : Nat)
    (st' : MergeState) (infos : List StepInfo)
    (h : mergeLoop st layer ds = .ok (st', infos)) :
    infos.map (fun i => i.title) = titlesExpected st.pagenum ds ∧
    List.Forall₂ (fun (i : StepInfo) (dd : PdfDoc) =>
      dd.pages = [] → i.target = (0, 0)) infos ds := by
  induction ds generalizing st layer infos with
  | nil =>
    unfold mergeLoop at h
    rw [Except.ok.injEq, Prod.mk.injEq] at h
    obtain ⟨hst, hinfos⟩ := h
    rw [← hinfos]
    exact ⟨rfl, List.Forall₂.nil⟩
  | cons d ds ih =>
    unfold mergeLoop at h
    cases hs : mergeStep st layer d with
    | error e =>
      rw [hs] at h
      simp at h
    | ok r =>
      obtain ⟨st1, info⟩ := r
      simp only [hs] at h
      cases hloop : mergeLoop st1 (layer + 1) ds with
      | error e =>
        rw [hloop] at h
        simp at h
      | ok r2 =>
        obtain ⟨st2, infos2⟩ := r2
        simp only [hloop] at h
        rw [Except.ok.injEq, Prod.mk.injEq] at h
        obtain ⟨hst, hinfos⟩ := h
        subst hst
        subst hinfos
        obtain ⟨hemp, hne⟩ := mergeStep_title_spec st layer d st1 info hs
        obtain ⟨iht, ihf⟩ := ih st1 (layer + 1) infos2 hloop
        constructor
        · rw [List.map_cons, iht]
          show _ = (if d.pages.isEmpty then "" else "Page " ++ toString st.pagenum) ::
            titlesExpected (if d.pages.isEmpty then st.pagenum else st.pagenum + 1) ds
          cases hdp : d.pages with
          | nil =>
            obtain ⟨h1, _, h3⟩ := hemp hdp
            rw [h1, h3]
            rfl
          | cons p rest =>
            obtain ⟨h1, h2⟩ := hne (by rw [hdp]; simp)
            rw [h1, h2]
            rfl
        · exact List.Forall₂.cons (fun hdp => (hemp hdp).2.1) ihf

theorem titlesExpected_get (ds : List PdfDoc) (n j : Nat) (hj : j < ds.length) :
    (titlesExpected n ds).get? j =
      some (if (ds.get ⟨j, hj⟩).pages.isEmpty then ""
            else "Page " ++ toString (n +
              ((ds.take j).filter (fun dd => !dd.pages.isEmpty)).length)) := by
  induction ds generalizing n j with
  | nil => simp at hj
  | cons d ds ih =>
    cases j with
    | zero =>
      show some (if d.pages.isEmpty then "" else "Page " ++ toString n) = _
      rw [show ((d :: ds).get ⟨0, hj⟩) = d from rfl,
        show ((d :: ds).take 0) = [] from rfl]
      by_cases hdp : d.pages.isEmpty
      · rw [if_pos hdp, if_pos hdp]
      · rw [if_neg hdp, if_neg hdp]
        rfl
    | succ m =>
      have hm : m < ds.length := by
        rw [List.length_cons] at hj
        omega
      show (titlesExpected (if d.pages.isEmpty then n else n + 1) ds).get? m = _
      rw [ih (if d.pages.isEmpty then n else n + 1) m hm,
        show ((d :: ds).get ⟨m + 1, hj⟩) = ds.get ⟨m, hm⟩ from rfl,
        show ((d :: ds).take (m + 1)) = d :: ds.take m from rfl,
        List.filter_cons]
      cases hdp : d.pages.isEmpty with
      | true =>
        rw [if_pos (show (true = true) from rfl),
          if_neg (show ¬ ((!true) = true) from by simp)]
      | false =>
        rw [if_neg (show ¬ (false = true) from by simp),
          if_pos (show ((!false) = true) from rfl), List.length_cons,
          show n + 1 + ((ds.take m).filter (fun dd => !dd.pages.isEmpty)).length
            = n + (((ds.take m).filter (fun dd => !dd.pages.isEmpty)).length + 1)
          from by omega]

/-- C10: a document contributing zero pages gets a bookmark with the empty
title and the sentinel target (0, 0), and the running counter is not
incremented for it, so the title number of any contributing document's
bookmark equals 1 plus the count of preceding documents that contributed at
least one page. -/
theorem zero_page_documents (docs : List PdfDoc)
    (h : (runMerge docs).isOk = true) (j : Nat) (hj : j < docs.length) :
    ((docs.get ⟨j, hj⟩).pages = [] →
      (titlesOf docs).get? j = some "" ∧ (targetsOf docs).get? j = some (0, 0)) ∧
    ((docs.get ⟨j, hj⟩).pages ≠ [] →
      (titlesOf docs).get? j =
        some ("Page " ++ toString (1 +
          ((docs.take j).filter (fun dd => !dd.pages.isEmpty)).length))) := by
  cases hrun : runMerge docs with
  | error e =>
    rw [hrun] at h
    simp [Except.isOk, Except.toBool] at h
  | ok r =>
    obtain ⟨st, infos⟩ := r
    have hrun' := hrun
    unfold runMerge at hrun'
    cases hinit : initMerge docs.length with
    | error e =>
      simp only [hinit] at hrun'
      simp at hrun'
    | ok st0 =>
      simp only [hinit] at hrun'
      obtain ⟨_, _, hpn0, _, _, _, _, _⟩ := initMerge_ok docs.length st0 hinit
      obtain ⟨htitles, hforall⟩ := mergeLoop_title_spec docs st0 1 st infos hrun'
      rw [hpn0] at htitles
      have hT : titlesOf docs = infos.map (fun i => i.title) := by
        unfold titlesOf
        rw [hrun]
      have hG : targetsOf docs = infos.map (fun i => i.target) := by
        unfold targetsOf
        rw [hrun]
      have hlen : infos.length = docs.length := List.Forall₂.length_eq hforall
      constructor
      · intro hdp
        constructor
        · rw [hT, htitles, titlesExpected_get docs 1 j hj, hdp]
          rfl
        · rw [hG]
          obtain ⟨_, hg2⟩ := List.forall₂_iff_get.mp hforall
          have htgt := hg2 j (by omega) hj
          rw [List.get?_map, List.get?_eq_get (show j < infos.length by omega),
            Option.map_some', htgt hdp]
      · intro hdp
        rw [hT, htitles, titlesExpected_get docs 1 j hj]
        rw [if_neg (fun hh => hdp (by simpa using hh))]

/-! ### Claim C4 -/

theorem relinkPages_get_not_mem (dp : List (ObjectId × Obj))
    (acc : List (ObjectId × Obj)) (pid a : ObjectId)
    (ha : a ∉ dp.map Prod.fst) :
    btGet (relinkPages dp pid acc) a = btGet acc a := by
  induction dp generalizing acc with
  | nil => rfl
  | cons p rest ih =>
    have ha' : a ∉ rest.map Prod.fst := by
      intro hm
      exact ha (by rw [List.map_cons]; exact List.mem_cons_of_mem _ hm)
    have hap : a ≠ p.1 := by
      intro hh
      exact ha (by rw [List.map_cons, hh]; exact List.mem_cons_self _ _)
    show btGet (relinkPages rest pid _) a = btGet acc a
    cases hd : p.2.asDict with
    | some d =>
      simp only [hd]
      rw [ih _ ha', btGet_insert_ne acc p.1 _ a hap]
    | none =>
      simp only [hd]
      exact ih acc ha'

theorem relinkPages_get_mem (dp : List (ObjectId × Obj))
    (acc : List (ObjectId × Obj)) (pid : ObjectId)
    (hnd : (dp.map Prod.fst).Nodup) (p : ObjectId × Obj) (hp : p ∈ dp)
    (d : List (String × Obj)) (hd : p.2.asDict = some d) :
    btGet (relinkPages dp pid acc) p.1 =
      some (.dictionary (dictSet d "Parent" (.reference pid))) := by
  induction dp generalizing acc with
  | nil => exact absurd hp (by simp)
  | cons q rest ih =>
    have hq : (rest.map Prod.fst).Nodup := by
      rw [List.map_cons] at hnd
      exact (List.nodup_cons.mp hnd).2
    have hqn : q.1 ∉ rest.map Prod.fst := by
      rw [List.map_cons] at hnd
      exact (List.nodup_cons.mp hnd).1
    rcases List.mem_cons.mp hp with hpq | hpr
    · subst hpq
      show btGet (relinkPages rest pid _) p.1 = _
      simp only [hd]
      rw [relinkPages_get_not_mem rest _ pid p.1 hqn, btGet_insert_self]
    · show btGet (relinkPages rest pid _) p.1 = _
      exact ih _ hq hpr

theorem typeNameD_type_field (o : Obj) (s : String) (hs : s ≠ "")
    (h : typeNameD o = s) :
    ∃ da, o = .dictionary da ∧ dictGet da "Type" = some (.name s) := by
  cases o with
  | dictionary da =>
    refine ⟨da, rfl, ?_⟩
    unfold typeNameD Obj.typeName Obj.asDict at h
    simp only [Option.some_bind] at h
    cases ht : dictGet da "Type" with
    | none =>
      rw [ht] at h
      exact absurd h.symm hs
    | some t =>
      rw [ht] at h
      cases t with
      | name s' =>
        simp only [Option.some_bind] at h
        have hss : s' = s := by simpa using h
        rw [hss]
      | _ =>
        simp only [Option.some_bind] at h
        exact absurd h.symm hs
  | _ => exact absurd h.symm hs

theorem typeNameD_of_type_field (da : List (String × Obj)) (s : String)
    (h : dictGet da "Type" = some (.name s)) :
    typeNameD (.dictionary da) = s := by
  unfold typeNameD Obj.typeName Obj.asDict
  rw [Option.some_bind, h, Option.some_bind]
  rfl

/-- C4: after reassembly, the output Pages dictionary's `Count` equals the
number of collected pages, the `Kids` array lists exactly the collected
identifiers (so its length equals `Count`), and every identifier in `Kids`
maps in the output graph to a dictionary of declared type "Page". -/
theorem pages_count_kids_invariant (cl : Classified) (dp : List (ObjectId × Obj))
    (res : OutDoc) (pid cid : ObjectId) (pobj cobj : Obj) (pd : List (String × Obj))
    (hcl : cl.pages = some (pid, pobj))
    (hpd : pobj.asDict = some pd)
    (hcat : cl.catalog = some (cid, cobj))
    (hne : cid ≠ pid)
    (hdp : dp.all (fun p => typeNameD p.2 == "Page") = true)
    (hnodup : (dp.map Prod.fst).Nodup)
    (hpid : pid ∉ dp.map Prod.fst)
    (hcid : cid ∉ dp.map Prod.fst) :
    (reassembleCore cl dp res).isOk = true ∧
    (reassembledObjects cl dp res).map (fun objs => btGet objs pid) =
      some (some (.dictionary (pagesRebuilt pd dp))) ∧
    dictGet (pagesRebuilt pd dp) "Count" = some (.integer (Int.ofNat dp.length)) ∧
    dictGet (pagesRebuilt pd dp) "Kids" =
      some (.array (dp.map (fun p => Obj.reference p.1))) ∧
    (dp.map (fun p => Obj.reference p.1)).length = dp.length ∧
    (reassembledObjects cl dp res).map (fun objs =>
      (dp.map Prod.fst).all (fun a =>
        match btGet objs a with
        | some o => typeNameD o == "Page"
        | none => false)) = some true := by
  have hpages : ∀ a ∈ dp.map Prod.fst,
      btGet (relinkPages dp pid cl.resObjects) a ≠ none ∧
      ∀ o, btGet (relinkPages dp pid cl.resObjects) a = some o →
        typeNameD o = "Page" := by
    intro a hma
    obtain ⟨p, hp, hpa⟩ := List.mem_map.mp hma
    have hptype : typeNameD p.2 = "Page" := by
      have := List.all_eq_true.mp hdp p hp
      simpa using this
    obtain ⟨da, hda, hty⟩ := typeNameD_type_field p.2 "Page" (by decide) hptype
    have hdad : p.2.asDict = some da := by
      rw [hda]
      rfl
    have hget := relinkPages_get_mem dp cl.resObjects pid hnodup p hp da hdad
    rw [hpa] at hget
    constructor
    · rw [hget]
      simp
    · intro o ho
      rw [hget] at ho
      have ho' : o = .dictionary (dictSet da "Parent" (.reference pid)) :=
        (Option.some_inj.mp ho).symm
      rw [ho']
      apply typeNameD_of_type_field
      rw [dictGet_set_ne da "Parent" _ "Type" (by decide)]
      exact hty
  -- compute the reassembly
  cases hco : cobj.asDict with
  | some cd =>
    have hre : reassembleCore cl dp res = .ok
        ({ res with
            objects := btInsert
              (btInsert (relinkPages dp pid cl.resObjects) pid
                (.dictionary (pagesRebuilt pd dp))) cid
              (.dictionary (dictRemove (dictSet (dictSet cd "Pages" (.reference pid))
                "PageMode" (.name "UseOutlines")) "Outlines"))
            trailer := dictSet res.trailer "Root" (.reference cid)
            maxId := (btInsert
              (btInsert (relinkPages dp pid cl.resObjects) pid
                (.dictionary (pagesRebuilt pd dp))) cid
              (.dictionary (dictRemove (dictSet (dictSet cd "Pages" (.reference pid))
                "PageMode" (.name "UseOutlines")) "Outlines"))).length },
          cid, pid) := by
      unfold reassembleCore
      simp only [hcl, hcat, hpd, hco]
    have hobjs : reassembledObjects cl dp res = some (btInsert
        (btInsert (relinkPages dp pid cl.resObjects) pid
          (.dictionary (pagesRebuilt pd dp))) cid
        (.dictionary (dictRemove (dictSet (dictSet cd "Pages" (.reference pid))
          "PageMode" (.name "UseOutlines")) "Outlines"))) := by
      unfold reassembledObjects
      rw [hre]
    refine ⟨by rw [hre]; rfl, ?_, ?_, ?_, by rw [List.length_map], ?_⟩
    · rw [hobjs, Option.map_some', btGet_insert_ne _ cid _ pid (fun hh => hne hh.symm),
        btGet_insert_self]
    · unfold pagesRebuilt
      rw [dictGet_set_ne _ "Kids" _ "Count" (by decide), dictGet_set_self]
    · unfold pagesRebuilt
      rw [dictGet_set_self]
    · rw [hobjs, Option.map_some']
      refine congrArg _ (List.all_eq_true.mpr ?_)
      intro a hma
      have hanp : a ≠ pid := fun hh => hpid (hh ▸ hma)
      have hanc : a ≠ cid := fun hh => hcid (hh ▸ hma)
      rw [btGet_insert_ne _ cid _ a hanc, btGet_insert_ne _ pid _ a hanp]
      obtain ⟨hnn, hall⟩ := hpages a hma
      cases hv : btGet (relinkPages dp pid cl.resObjects) a with
      | none => exact absurd hv hnn
      | some o =>
        have := hall o hv
        simp [this]
  | none =>
    have hre : reassembleCore cl dp res = .ok
        ({ res with
            objects := btInsert (relinkPages dp pid cl.resObjects) pid
              (.dictionary (pagesRebuilt pd dp))
            trailer := dictSet res.trailer "Root" (.reference cid)
            maxId := (btInsert (relinkPages dp pid cl.resObjects) pid
              (.dictionary (pagesRebuilt pd dp))).length },
          cid, pid) := by
      unfold reassembleCore
      simp only [hcl, hcat, hpd, hco]
    have hobjs : reassembledObjects cl dp res = some
        (btInsert (relinkPages dp pid cl.resObjects) pid
          (.dictionary (pagesRebuilt pd dp))) := by
      unfold reassembledObjects
      rw [hre]
    refine ⟨by rw [hre]; rfl, ?_, ?_, ?_, by rw [List.length_map], ?_⟩
    · rw [hobjs, Option.map_some', btGet_insert_self]
    · unfold pagesRebuilt
      rw [dictGet_set_ne _ "Kids" _ "Count" (by decide), dictGet_set_self]
    · unfold pagesRebuilt
      rw [dictGet_set_self]
    · rw [hobjs, Option.map_some']
      refine congrArg _ (List.all_eq_true.mpr ?_)
      intro a hma
      have hanp : a ≠ pid := fun hh => hpid (hh ▸ hma)
      rw [btGet_insert_ne _ pid _ a hanp]
      obtain ⟨hnn, hall⟩ := hpages a hma
      cases hv : btGet (relinkPages dp pid cl.resObjects) a with
      | none => exact absurd hv hnn
      | some o =>
        have := hall o hv
        simp [this]

/-- C4 witness: a concrete classified state with one Catalog, one Pages root
and one collected page. -/
theorem pages_count_kids_invariant_witness :
    (reassembleCore
        { catalog := some ((1, 0), catalogDict (2, 0)),
          pages := some ((2, 0), pagesDict [(3, 0)]),
          resObjects := [] }
        [((3, 0), pageDict (2, 0))] emptyOut).isOk = true ∧
    (reassembledObjects
        { catalog := some ((1, 0), catalogDict (2, 0)),
          pages := some ((2, 0), pagesDict [(3, 0)]),
          resObjects := [] }
        [((3, 0), pageDict (2, 0))] emptyOut).map
      (fun objs => btGet objs (2, 0)) =
      some (some (.dictionary
        (pagesRebuilt [("Type", .name "Pages"),
          ("Kids", .array [Obj.reference (3, 0)]), ("Count", .integer 1)]
          [((3, 0), pageDict (2, 0))]))) ∧
    dictGet (pagesRebuilt [("Type", .name "Pages"),
        ("Kids", .array [Obj.reference (3, 0)]), ("Count", .integer 1)]
        [((3, 0), pageDict (2, 0))]) "Count" = some (.integer (Int.ofNat 1)) ∧
    dictGet (pagesRebuilt [("Type", .name "Pages"),
        ("Kids", .array [Obj.reference (3, 0)]), ("Count", .integer 1)]
        [((3, 0), pageDict (2, 0))]) "Kids" =
      some (.array ([((3, 0), pageDict (2, 0))].map (fun p => Obj.reference p.1))) ∧
    ([((3, 0), pageDict (2, 0))].map (fun p => Obj.reference p.1)).length = 1 ∧
    (reassembledObjects
        { catalog := some ((1, 0), catalogDict (2, 0)),
          pages := some ((2, 0), pagesDict [(3, 0)]),
          resObjects := [] }
        [((3, 0), pageDict (2, 0))] emptyOut).map
      (fun objs => ([((3, 0), pageDict (2, 0))].map Prod.fst).all (fun a =>
        match btGet objs a with
        | some o => typeNameD o == "Page"
        | none => false)) = some true :=
  pages_count_kids_invariant
    { catalog := some ((1, 0), catalogDict (2, 0)),
      pages := some ((2, 0), pagesDict [(3, 0)]),
      resObjects := [] }
    [((3, 0), pageDict (2, 0))] emptyOut (2, 0) (1, 0)
    (pagesDict [(3, 0)]) (catalogDict (2, 0))
    [("Type", .name "Pages"), ("Kids", .array [Obj.reference (3, 0)]),
      ("Count", .integer 1)]
    rfl rfl rfl (by decide) (by decide) (by decide) (by decide) (by decide)

/-- C10 witness: the middle document contributes no pages, so its bookmark
has the empty title and the sentinel target; the third document's title is
"Page 2" — 1 plus the single preceding contributing document. -/
theorem zero_page_documents_witness :
    (titlesOf [docOnePage, docZeroPages, docOnePage]).get? 1 = some "" ∧
    (targetsOf [docOnePage, docZeroPages, docOnePage]).get? 1 = some (0, 0) ∧
    (titlesOf [docOnePage, docZeroPages, docOnePage]).get? 2 =
      some ("Page " ++ toString (1 +
        (([docOnePage, docZeroPages, docOnePage].take 2).filter
          (fun dd => !dd.pages.isEmpty)).length)) := by
  have h1 := zero_page_documents [docOnePage, docZeroPages, docOnePage] (by rfl) 1 (by decide)
  have h2 := zero_page_documents [docOnePage, docZeroPages, docOnePage] (by rfl) 2 (by decide)
  exact ⟨(h1.1 rfl).1, (h1.1 rfl).2, h2.2 (by simp [docOnePage])⟩

end MergePdf
